import Mathlib

/-!
Verification of the sudoku repository's deduction engine against its
specification.  The definitions below are a shallow embedding of the
TypeScript sources `src/models/sudoku.ts`, `src/models/utils.ts` and
`src/models/sudokuSolver.ts`.  JavaScript `Set` and `Map` objects are
modelled as insertion-ordered association lists, `CellSet` as an
insertion-ordered list of cell indices (the code keys its cell map by
`CellPosition.idx`, and position objects are canonical per index, so
identity comparisons are index comparisons).  `console.log` calls, the
cosmetic `name` field of `CellSet` and the UI-only fields (selection,
metadata, decorations) have no effect on the verified behaviour and are
omitted.  Thrown exceptions are modelled by returning `none`.
-/

set_option maxRecDepth 10000
set_option maxHeartbeats 10000000

/-- A JavaScript number as stored in a cell value: either an integer or NaN
(the result of `Number(c)` on a non-numeric character). -/
inductive JsVal where
  | num (n : Int)
  | nan
deriving DecidableEq

/-- JavaScript strict equality on numbers: NaN compares unequal to
everything, itself included. -/
def jsStrictEq : JsVal → JsVal → Bool
  | JsVal.num m, JsVal.num n => m == n
  | _, _ => false

/-- `cell.value || 0` as used in the full-house sum: undefined, NaN and 0
are all falsy and give 0. -/
def jsOrZero : Option JsVal → Int
  | some (JsVal.num n) => n
  | _ => 0

/-- `Number(c)` for a single character: digits give their value, whitespace
gives 0 (a JavaScript quirk), everything else gives NaN. -/
def charJsNum (c : Char) : JsVal :=
  if 48 ≤ c.toNat ∧ c.toNat ≤ 57 then JsVal.num ((c.toNat : Int) - 48)
  else if c = ' ' ∨ c = '\t' ∨ c = '\n' ∨ c = '\r' then JsVal.num 0
  else JsVal.nan

/-- `SudokuCell` from `sudoku.ts`.  The `position` field is omitted: it is
canonical per cell index and cells are addressed by index here. -/
structure SudokuCell where
  isGiven : Bool
  value : Option JsVal
  candidates : List Int
  pencilMarks : List Int
deriving DecidableEq

def blankCell : SudokuCell :=
  { isGiven := false, value := none, candidates := [], pencilMarks := [] }

instance : Inhabited SudokuCell := ⟨blankCell⟩

/-- `SudokuCell.setValue`: refuses on given cells, otherwise stores the
value and clears both candidate sets. -/
def SudokuCell.setValue (cell : SudokuCell) (v : Option JsVal) : SudokuCell :=
  if cell.isGiven then cell
  else { cell with value := v, candidates := [], pencilMarks := [] }

/-- Toggle an element of an insertion-ordered set: delete when present,
append when absent. -/
def setToggle (s : List Int) (d : Int) : List Int :=
  if d ∈ s then s.erase d else s ++ [d]

/-- `SudokuCell.toggleCandidate`: refuses on given cells, otherwise clears
the value and toggles the candidate. -/
def SudokuCell.toggleCandidate (cell : SudokuCell) (d : Int) : SudokuCell :=
  if cell.isGiven then cell
  else { cell with value := none, candidates := setToggle cell.candidates d }

/-- `SudokuCell.togglePencilMark`: refuses on given cells, otherwise clears
the value and toggles the pencil mark. -/
def SudokuCell.togglePencilMark (cell : SudokuCell) (d : Int) : SudokuCell :=
  if cell.isGiven then cell
  else { cell with value := none, pencilMarks := setToggle cell.pencilMarks d }

def SudokuCell.clearCandidates (cell : SudokuCell) : SudokuCell :=
  { cell with candidates := [] }

def SudokuCell.clearPencilMarks (cell : SudokuCell) : SudokuCell :=
  { cell with pencilMarks := [] }

/-- `SudokuState`: the 81 cells in row-major order.  The UI selection set
is omitted (never touched by the solver). -/
structure SudokuState where
  cells : List SudokuCell
deriving DecidableEq

def SudokuState.getCellD (st : SudokuState) (i : Nat) : SudokuCell :=
  st.cells.getD i blankCell

def SudokuState.modifyCell (st : SudokuState) (i : Nat) (f : SudokuCell → SudokuCell) :
    SudokuState :=
  { cells := st.cells.set i (f (st.getCellD i)) }

/-- The `Sudoku` wrapper: current state plus the undo history maintained by
`updateState`. -/
structure Sudoku where
  state : SudokuState
  currentStateIndex : Nat
  stateHistory : List SudokuState
deriving DecidableEq

/-- The committing half of `Sudoku.updateState`: truncate the redo tail,
push the new state and advance the index.  Only called when the produced
state differs from the current one. -/
def Sudoku.pushState (sud : Sudoku) (newState : SudokuState) : Sudoku :=
  { state := newState,
    stateHistory := sud.stateHistory.take (sud.currentStateIndex + 1) ++ [newState],
    currentStateIndex := sud.currentStateIndex + 1 }

/-- `Sudoku.updateState`: produce a new state with `f`; if nothing changed
report `false` and keep the board, otherwise commit. -/
def Sudoku.updateState (sud : Sudoku) (f : SudokuState → SudokuState) : Bool × Sudoku :=
  let newState := f sud.state
  if newState = sud.state then (false, sud) else (true, sud.pushState newState)

/-- A fresh 9 x 9 board as built by the `Sudoku` constructor. -/
def Sudoku.new : Sudoku :=
  let st : SudokuState := { cells := List.replicate 81 blankCell }
  { state := st, currentStateIndex := 0, stateHistory := [st] }

/-- The body of `Sudoku.fromString`: walk the characters; `.` is skipped,
anything else marks the cell given with `Number(char)` as value.  Reading a
cell beyond index 80 dereferences `undefined` in the source (a TypeError),
modelled as `none`. -/
def fromStringGo : List SudokuCell → Nat → List Char → Option (List SudokuCell)
  | cells, _, [] => some cells
  | cells, i, c :: rest =>
    if c = '.' then fromStringGo cells (i + 1) rest
    else if i < 81 then
      fromStringGo
        (cells.set i
          { cells.getD i blankCell with isGiven := true, value := some (charJsNum c) })
        (i + 1) rest
    else none

/-- `Sudoku.fromString` with the default 9 x 9 shape.  Note: the source
performs no length or character validation. -/
def Sudoku.fromString (code : List Char) : Option Sudoku :=
  (fromStringGo (List.replicate 81 blankCell) 0 code).map fun cells =>
    let st : SudokuState := { cells := cells }
    { state := st, currentStateIndex := 0, stateHistory := [st] }

/-- `CellSet` from `utils.ts`: an insertion-ordered set of cell indices. -/
abbrev CellSet : Type := List Nat

def CellSet.empty : CellSet := ([] : List Nat)

/-- `CellSet.add`: JS `Map.set` keeps the original slot of an existing key,
so adding a present element is a no-op and a new element is appended. -/
def CellSet.add (s : CellSet) (c : Nat) : CellSet :=
  if c ∈ s then s else s ++ [c]

def CellSet.has (s : CellSet) (c : Nat) : Bool := decide (c ∈ s)

/-- `CellSet.delete`: removes the entry of the key. -/
def CellSet.del (s : CellSet) (c : Nat) : CellSet :=
  List.filter (fun x => x != c) s

def CellSet.size (s : CellSet) : Nat := List.length s

/-- `CellSet.union` (instance method): copy `this` then add the other. -/
def CellSet.union (a b : CellSet) : CellSet :=
  List.foldl CellSet.add (List.foldl CellSet.add CellSet.empty a) b

/-- `CellSet.intersection` (instance method): keep the members of `this`
present in the other. -/
def CellSet.inter (a b : CellSet) : CellSet :=
  List.foldl (fun u c => if c ∈ b then u.add c else u) CellSet.empty a

/-- `CellSet.substract`: members of `this` not in the other. -/
def CellSet.substract (a b : CellSet) : CellSet :=
  List.foldl (fun u c => if c ∈ b then u else u.add c) CellSet.empty a

def CellSet.isSubsetOf (a b : CellSet) : Bool :=
  List.all a fun c => decide (c ∈ b)

/-- `CellSet.union(...sets)` (static). -/
def CellSet.unionAll (sets : List CellSet) : CellSet :=
  sets.foldl (fun u s => List.foldl CellSet.add u s) CellSet.empty

/-- `CellSet.intersection(...sets)` (static): members of the first set
present in all the others.  The source destructures the first set and
throws on an empty argument list; the code never passes one, and the
`[]` case here is unreachable in the modelled call sites. -/
def CellSet.interAll : List CellSet → CellSet
  | [] => CellSet.empty
  | first :: rest =>
    List.foldl (fun u c => if rest.all fun s => decide (c ∈ s) then u.add c else u)
      CellSet.empty first

/-- Insertion-ordered association list standing for a JS `Map`. -/
def mapGet? {κ α : Type} [DecidableEq κ] : List (κ × α) → κ → Option α
  | [], _ => none
  | e :: rest, k => if e.1 = k then some e.2 else mapGet? rest k

def mapSet {κ α : Type} [DecidableEq κ] : List (κ × α) → κ → α → List (κ × α)
  | [], k, v => [(k, v)]
  | e :: rest, k, v => if e.1 = k then (k, v) :: rest else e :: mapSet rest k v

def mapDel {κ α : Type} [DecidableEq κ] : List (κ × α) → κ → List (κ × α)
  | [], _ => []
  | e :: rest, k => if e.1 = k then rest else e :: mapDel rest k

/-- `map.get(k)?.mutate(...)`: modify the value of a present key in place. -/
def mapModify {κ α : Type} [DecidableEq κ] : List (κ × α) → κ → (α → α) → List (κ × α)
  | [], _, _ => []
  | e :: rest, k, f => if e.1 = k then (k, f e.2) :: rest else e :: mapModify rest k f

/-- Block index of a cell: the solver builds blocks row-band first. -/
def blockIdxOf (i : Nat) : Nat := (i / 9 / 3) * 3 + (i % 9) / 3

def rowCells (r : Nat) : CellSet := (List.range 9).map fun c => r * 9 + c

def colCells (c : Nat) : CellSet := (List.range 9).map fun r => r * 9 + c

def blockCells (b : Nat) : CellSet :=
  (List.range 3).flatMap fun x =>
    (List.range 3).map fun y => (b / 3 * 3 + x) * 9 + (b % 3 * 3 + y)

def cellsInBlocks : List CellSet := (List.range 9).map blockCells

def cellsInRows : List CellSet := (List.range 9).map rowCells

def cellsInColumns : List CellSet := (List.range 9).map colCells

/-- `foreachHouse` order: blocks, then rows, then columns. -/
def allHouses : List CellSet := cellsInBlocks ++ cellsInRows ++ cellsInColumns

/-- The three houses of a cell, pushed block first, then row, then column
(the constructor fills blocks, rows and columns in that order). -/
def constrainsOfCell (i : Nat) : List CellSet :=
  [blockCells (blockIdxOf i), rowCells (i / 9), colCells (i % 9)]

/-- The digit range 1..9 iterated by every `for value = 1..9` loop. -/
def digits : List Int := [1, 2, 3, 4, 5, 6, 7, 8, 9]

/-- The subset sizes 2..4 iterated by the subset and fish techniques. -/
def subsetSizes : List Nat := [2, 3, 4]

/-- The solver's view while a technique runs inside `updateState`: the
draft board state plus the solver's two live index maps
(`candidatesForCell`: cell index to remaining digits,
`possibleCellsForCandidate`: digit to cells that may hold it). -/
structure TechState where
  state : SudokuState
  candidatesForCell : List (Nat × List Int)
  possibleCellsForCandidate : List (Int × CellSet)
deriving DecidableEq

/-- `SudokuSolver.deleteCandidate`: unconditionally remove the digit from
the cell's pencil marks and from both index maps.  No emptiness check. -/
def deleteCandidate (ts : TechState) (c : Nat) (d : Int) : TechState :=
  { state := ts.state.modifyCell c fun cell =>
      { cell with pencilMarks := cell.pencilMarks.erase d },
    possibleCellsForCandidate :=
      mapModify ts.possibleCellsForCandidate d fun s => s.del c,
    candidatesForCell := mapModify ts.candidatesForCell c fun s => s.erase d }

/-- `SudokuSolver.setCellValue`: drop every remaining candidate of the cell
(from a snapshot of its set), remove its map entry, store the value, and
delete the value from the candidates of every peer in its three houses. -/
def setCellValue (ts : TechState) (c : Nat) (v : Int) : TechState :=
  let snapshot := (mapGet? ts.candidatesForCell c).getD []
  let ts := snapshot.foldl (fun ts cand => deleteCandidate ts c cand) ts
  let ts := { ts with candidatesForCell := mapDel ts.candidatesForCell c }
  let ts := { ts with state :=
      ts.state.modifyCell c fun cell => cell.setValue (some (JsVal.num v)) }
  (constrainsOfCell c).foldl
    (fun ts house => house.foldl
      (fun ts oc => if oc = c then ts else deleteCandidate ts oc v) ts)
    ts

/-- `SudokuSolver.checkValueIsValid`: no house holds two distinct cells
with the same defined value (strict JS equality, so NaN never clashes). -/
def checkValueIsValid (st : SudokuState) : Bool :=
  allHouses.all fun house =>
    house.all fun c1 => house.all fun c2 =>
      decide (c1 = c2) ||
      (st.getCellD c1).value.isNone || (st.getCellD c2).value.isNone ||
      !(jsStrictEq ((st.getCellD c1).value.getD JsVal.nan)
          ((st.getCellD c2).value.getD JsVal.nan))

/-- `SudokuSolver.permutations(arr, size)`: ordered k-combinations, heads
in array order. -/
def combinations {α : Type} : Nat → List α → List (List α)
  | 0, _ => [[]]
  | _ + 1, [] => []
  | n + 1, a :: rest =>
    ((combinations n rest).map fun tail => a :: tail) ++ combinations (n + 1) rest

/-- A technique body: the state produced by the first firing search hit,
or the untouched input when the search found nothing. -/
def applyFound (ts : TechState) : Option TechState → TechState
  | some ts2 => ts2
  | none => ts

/-- `SudokuSolver.fullHouse`: the first house with exactly one empty cell
gets the missing digit, 45 minus the sum of the filled ones. -/
def fullHouseSearch (ts : TechState) : Option TechState :=
  allHouses.findSome? (fun house =>
    match house.filter (fun c => (ts.state.getCellD c).value.isNone) with
    | [cell] =>
      let missing : Int :=
        45 - house.foldl (fun acc c => acc + jsOrZero (ts.state.getCellD c).value) 0
      some (setCellValue ts cell missing)
    | _ => none)

def fullHouse (ts : TechState) : TechState := applyFound ts (fullHouseSearch ts)

/-- `SudokuSolver.nakedSingle`: scanning houses in block/row/column order,
place the single pencil mark of the first empty cell having exactly one. -/
def nakedSingleSearch (ts : TechState) : Option TechState :=
  allHouses.findSome? (fun house =>
    house.findSome? fun c =>
      let cell := ts.state.getCellD c
      if cell.value.isSome then none
      else match cell.pencilMarks with
        | [v] => some (setCellValue ts c v)
        | _ => none)

def nakedSingle (ts : TechState) : TechState := applyFound ts (nakedSingleSearch ts)

/-- `SudokuSolver.solveHiddenSingle`: for the first house and digit whose
candidate cells within the house form a singleton, place the digit there. -/
def hiddenSingleSearch (ts : TechState) : Option TechState :=
  allHouses.findSome? (fun house =>
    digits.findSome? fun v =>
      match mapGet? ts.possibleCellsForCandidate v with
      | none => none
      | some cs =>
        match cs.inter house with
        | [c] => some (setCellValue ts c v)
        | _ => none)

def solveHiddenSingle (ts : TechState) : TechState :=
  applyFound ts (hiddenSingleSearch ts)

/-- The `check` closure of `LockedCandidatesType`: if every candidate of
`v` in house A sits in the intersection with house B, delete `v` from the
cells of B outside the intersection; report a hit only if something was
deleted. -/
def lockedCheck (ts : TechState) (houseA houseB : CellSet) : Option TechState :=
  let inter := houseA.inter houseB
  if inter.length = 0 then none
  else digits.findSome? fun v =>
    let possibleCellsInA :=
      houseA.filter fun c => (ts.state.getCellD c).pencilMarks.contains v
    if possibleCellsInA.isEmpty then none
    else if possibleCellsInA.all (fun c => decide (c ∈ inter)) then
      let targets := houseB.filter fun c =>
        !(CellSet.has inter c) && (ts.state.getCellD c).pencilMarks.contains v
      if targets.isEmpty then none
      else some (targets.foldl (fun ts c => deleteCandidate ts c v) ts)
    else none

/-- `SudokuSolver.LockedCandidatesType`: try block/line pairs in both
directions, blocks outer, rows before columns. -/
def lockedSearch (ts : TechState) : Option TechState :=
  cellsInBlocks.findSome? (fun block =>
    (cellsInRows.findSome? fun row =>
      (lockedCheck ts block row).orElse fun _ => lockedCheck ts row block).orElse
    fun _ =>
      cellsInColumns.findSome? fun col =>
        (lockedCheck ts block col).orElse fun _ => lockedCheck ts col block)

def lockedCandidatesType (ts : TechState) : TechState :=
  applyFound ts (lockedSearch ts)

/-- `SudokuSolver.hiddenSubset`: in a house, a set of `size` digits whose
candidate cells fit in at most `size` cells clears the other digits from
those cells. -/
def hiddenSubsetSearch (ts : TechState) : Option TechState :=
  allHouses.findSome? (fun house =>
    let phc : List (Int × CellSet) := digits.foldl (fun m v =>
      match mapGet? ts.possibleCellsForCandidate v with
      | none => m
      | some cs =>
        let pc := cs.inter house
        if pc.length = 0 then m else m ++ [(v, pc)]) []
    subsetSizes.findSome? fun size =>
      let inSize := digits.filterMap fun v =>
        match mapGet? phc v with
        | some cs => if cs.length ≤ size then some (v, cs) else none
        | none => none
      if inSize.length < size then none
      else (combinations size inSize).findSome? fun subset =>
        let cellUnion := CellSet.unionAll (subset.map Prod.snd)
        let valuesIn := subset.map Prod.fst
        if cellUnion.length ≤ size then
          let targets := cellUnion.flatMap fun c =>
            (digits.filter fun v =>
              !(valuesIn.contains v) &&
                (ts.state.getCellD c).pencilMarks.contains v).map fun v => (c, v)
          if targets.isEmpty then none
          else some (targets.foldl (fun ts p => deleteCandidate ts p.1 p.2) ts)
        else none)

def hiddenSubset (ts : TechState) : TechState := applyFound ts (hiddenSubsetSearch ts)

/-- One guarded deletion of `nakedSubset`: delete only when the live
candidate map still holds the digit, recording that something changed. -/
def nsStep (p : TechState × Bool) (c : Nat) (v : Int) : TechState × Bool :=
  match mapGet? p.1.candidatesForCell c with
  | some s => if s.contains v then (deleteCandidate p.1 c v, true) else p
  | none => p

/-- The `check` closure of `nakedSubset` for one house and size. -/
def nakedSubsetCheck (ts : TechState) (house : CellSet) (size : Nat) :
    Option TechState :=
  let possibleValues := house.filterMap fun c =>
    match mapGet? ts.candidatesForCell c with
    | some cands => if cands.length ≤ size then some (c, cands) else none
    | none => none
  (combinations size possibleValues).findSome? fun subset =>
    let valueUnion := subset.foldl (fun acc e =>
      e.2.foldl (fun acc v => if v ∈ acc then acc else acc ++ [v]) acc) []
    let idsInSubset := subset.map Prod.fst
    if valueUnion.length ≤ size then
      let p1 := house.foldl (fun p c =>
        if c ∈ idsInSubset then p
        else valueUnion.foldl (fun p v => nsStep p c v) p) (ts, false)
      let p2 := allHouses.foldl (fun p other =>
        if !(CellSet.isSubsetOf idsInSubset other) then p
        else other.foldl (fun p c =>
          if c ∈ idsInSubset then p
          else valueUnion.foldl (fun p v => nsStep p c v) p) p) p1
      if p2.2 then some p2.1 else none
    else none

/-- `SudokuSolver.nakedSubset`: `size` cells of a house whose candidates
union to at most `size` digits clear those digits from the rest of the
house and from every other house containing all the subset cells. -/
def nakedSubsetSearch (ts : TechState) : Option TechState :=
  allHouses.findSome? fun house =>
    subsetSizes.findSome? fun size => nakedSubsetCheck ts house size

def nakedSubset (ts : TechState) : TechState := applyFound ts (nakedSubsetSearch ts)

/-- The `check` closure of `basicFish`: base cells must be covered; every
cover cell outside the base loses the digit. -/
def fishCheck (ts : TechState) (v : Int) (base cover : List CellSet) :
    Option TechState :=
  let baseCells := CellSet.unionAll base
  let coverCells := CellSet.unionAll cover
  if !(baseCells.isSubsetOf coverCells) then none
  else
    let targets := coverCells.filter fun c => !(baseCells.has c)
    if targets.isEmpty then none
    else some (targets.foldl (fun ts c => deleteCandidate ts c v) ts)

/-- `SudokuSolver.basicFish`: for each size 2..4 and digit, pair `size`
rows against `size` columns, keeping only lines holding between 1 and
`size` candidate cells of the digit. -/
def basicFishSearch (ts : TechState) : Option TechState :=
  subsetSizes.findSome? (fun size => digits.findSome? fun v =>
    let rows := (List.range 9).filterMap fun i =>
      match mapGet? ts.possibleCellsForCandidate v with
      | some cs =>
        let r := cs.inter (cellsInRows.getD i CellSet.empty)
        if 0 < r.length ∧ r.length ≤ size then some r else none
      | none => none
    let cols := (List.range 9).filterMap fun i =>
      match mapGet? ts.possibleCellsForCandidate v with
      | some cs =>
        let r := cs.inter (cellsInColumns.getD i CellSet.empty)
        if 0 < r.length ∧ r.length ≤ size then some r else none
      | none => none
    (combinations size cols).findSome? fun colSet =>
      (combinations size rows).findSome? fun rowSet =>
        (fishCheck ts v colSet rowSet).orElse fun _ =>
          fishCheck ts v rowSet colSet)

def basicFish (ts : TechState) : TechState := applyFound ts (basicFishSearch ts)

/-- The `check` closure of `finnedFish`: fins are base cells left
uncovered; eliminations are cover cells outside the base that share a
house with every fin (with no fins, every cover cell outside the base). -/
def finCheck (ts : TechState) (v : Int) (base cover : List CellSet) :
    Option TechState :=
  let baseCells := CellSet.unionAll base
  let coverCells := CellSet.unionAll cover
  let fins := baseCells.substract coverCells
  let finCovers := fins.map fun f => CellSet.unionAll (constrainsOfCell f)
  let eliminated := CellSet.interAll (finCovers ++ [coverCells])
  let targets := eliminated.filter fun c => !(baseCells.has c)
  if targets.isEmpty then none
  else some (targets.foldl (fun ts c => deleteCandidate ts c v) ts)

/-- `SudokuSolver.finnedFish(state, searchComplexFish)`: rows against
columns without size caps; with `searchComplexFish` also admit blocks on
either side, requiring pairwise disjointness of the mixed side. -/
def finnedFishSearch (searchComplexFish : Bool) (ts : TechState) : Option TechState :=
  subsetSizes.findSome? (fun size => digits.findSome? fun v =>
    let rows := (List.range 9).filterMap fun i =>
      match mapGet? ts.possibleCellsForCandidate v with
      | some cs =>
        let r := cs.inter (cellsInRows.getD i CellSet.empty)
        if 0 < r.length then some r else none
      | none => none
    let cols := (List.range 9).filterMap fun i =>
      match mapGet? ts.possibleCellsForCandidate v with
      | some cs =>
        let r := cs.inter (cellsInColumns.getD i CellSet.empty)
        if 0 < r.length then some r else none
      | none => none
    let blocks := (List.range 9).filterMap fun i =>
      match mapGet? ts.possibleCellsForCandidate v with
      | some cs =>
        let r := cs.inter (cellsInBlocks.getD i CellSet.empty)
        if 0 < r.length then some r else none
      | none => none
    if !searchComplexFish then
      (combinations size cols).findSome? fun colSet =>
        (combinations size rows).findSome? fun rowSet =>
          (finCheck ts v colSet rowSet).orElse fun _ => finCheck ts v rowSet colSet
    else
      ((combinations size (cols ++ blocks)).findSome? fun colSet =>
        if (combinations 2 colSet).any
            (fun pair => (CellSet.interAll pair).length != 0) then none
        else (combinations size rows).findSome? fun rowSet =>
          (finCheck ts v colSet rowSet).orElse fun _ =>
            finCheck ts v rowSet colSet).orElse fun _ =>
      (combinations size (rows ++ blocks)).findSome? fun rowSet =>
        if (combinations 2 rowSet).any
            (fun pair => (CellSet.interAll pair).length != 0) then none
        else (combinations size cols).findSome? fun colSet =>
          (finCheck ts v colSet rowSet).orElse fun _ =>
            finCheck ts v rowSet colSet)

def finnedFishGen (searchComplexFish : Bool) (ts : TechState) : TechState :=
  applyFound ts (finnedFishSearch searchComplexFish ts)

def finnedFish (ts : TechState) : TechState := finnedFishGen false ts

def complexFish (ts : TechState) : TechState := finnedFishGen true ts

/-- The technique tags of the nine entries in `solveOneStep`'s `solvers`
array. -/
inductive Technique where
  | fullHouse
  | nakedSingle
  | hiddenSingle
  | lockedCandidates
  | hiddenSubset
  | nakedSubset
  | basicFish
  | finnedFish
  | complexFish
deriving DecidableEq

/-- The `solvers` array of `solveOneStep`, in source order. -/
def solvers : List (Technique × (TechState → TechState)) :=
  [(Technique.fullHouse, fullHouse),
   (Technique.nakedSingle, nakedSingle),
   (Technique.hiddenSingle, solveHiddenSingle),
   (Technique.lockedCandidates, lockedCandidatesType),
   (Technique.hiddenSubset, hiddenSubset),
   (Technique.nakedSubset, nakedSubset),
   (Technique.basicFish, basicFish),
   (Technique.finnedFish, finnedFish),
   (Technique.complexFish, complexFish)]

/-- The `SudokuSolver` instance: the owned board plus the two index maps. -/
structure Solver where
  sudoku : Sudoku
  candidatesForCell : List (Nat × List Int)
  possibleCellsForCandidate : List (Int × CellSet)
deriving DecidableEq

/-- The constructor: throws unless the board has 81 cells; the house
tables are global constants here. -/
def mkSolver (sud : Sudoku) : Option Solver :=
  if sud.state.cells.length = 81 then
    some { sudoku := sud, candidatesForCell := [], possibleCellsForCandidate := [] }
  else none

def Solver.draft (sol : Solver) : TechState :=
  { state := sol.sudoku.state,
    candidatesForCell := sol.candidatesForCell,
    possibleCellsForCandidate := sol.possibleCellsForCandidate }

/-- The dispatcher loop of `solveOneStep`: run each technique on the
draft; `updateState` reports whether the state changed; map side effects
survive even when it did not.  Returns the first firing technique. -/
def runTechs : List (Technique × (TechState → TechState)) → TechState →
    Option Technique × TechState
  | [], ts => (none, ts)
  | tf :: rest, ts =>
    let ts2 := tf.2 ts
    if ts2.state = ts.state then runTechs rest ts2 else (some tf.1, ts2)

/-- `SudokuSolver.solveOneStep`: try the techniques in order; on the first
state change commit the new state to the board history and re-validate
(throwing, modelled as `none`, if the board became invalid). -/
def solveOneStep (sol : Solver) : Option (Option Technique × Solver) :=
  match runTechs solvers sol.draft with
  | (none, ts2) =>
    some (none,
      { sol with candidatesForCell := ts2.candidatesForCell,
                 possibleCellsForCandidate := ts2.possibleCellsForCandidate })
  | (some t, ts2) =>
    let sud := sol.sudoku.pushState ts2.state
    if checkValueIsValid sud.state then
      some (some t,
        { sudoku := sud, candidatesForCell := ts2.candidatesForCell,
          possibleCellsForCandidate := ts2.possibleCellsForCandidate })
    else none

/-- First phase of `fillPencilMarks`: walk the cells in index order,
deleting the map entry of filled or given cells and giving every empty
cell the full digit set. -/
def cfcInitGo : List SudokuCell → Nat → List (Nat × List Int) → List (Nat × List Int)
  | [], _, m => m
  | c :: rest, i, m =>
    cfcInitGo rest (i + 1)
      (if c.isGiven || c.value.isSome then mapDel m i else mapSet m i digits)

/-- The values of the cells of a house, in house order. -/
def houseValues (st : SudokuState) (house : CellSet) : List (Option JsVal) :=
  house.map fun c => (st.getCellD c).value

/-- One `delete` cascade of the house scan: remove each defined numeric
value of the list from the candidate set of cell `c`. -/
def valuesEraseFold (vals : List (Option JsVal)) (c : Nat)
    (m : List (Nat × List Int)) : List (Nat × List Int) :=
  vals.foldl (fun m v =>
    match v with
    | some (JsVal.num n) => mapModify m c fun s => s.erase n
    | _ => m) m

/-- One house of the second `fillPencilMarks` phase: for each cell of the
house, delete every value present in the house from its candidate set. -/
def houseScanStep (st : SudokuState) (m : List (Nat × List Int))
    (house : CellSet) : List (Nat × List Int) :=
  house.foldl (fun m c => valuesEraseFold (houseValues st house) c m) m

/-- Second phase of `fillPencilMarks`: for every house, delete each value
present in the house from the candidate set of each of its cells. -/
def cfcHouseScan (st : SudokuState) (m : List (Nat × List Int)) :
    List (Nat × List Int) :=
  allHouses.foldl (fun m house =>
    let values := house.map fun c => (st.getCellD c).value
    house.foldl (fun m c =>
      values.foldl (fun m v =>
        match v with
        | some (JsVal.num n) => mapModify m c fun s => s.erase n
        | _ => m) m) m) m

/-- The `updateState` body of `fillPencilMarks`: clear and re-toggle the
pencil marks of each empty non-given cell from its computed candidates. -/
def applyPencilUpdate (m : List (Nat × List Int)) (st : SudokuState) : SudokuState :=
  m.foldl (fun st e =>
    let cell := st.getCellD e.1
    if cell.isGiven || cell.value.isSome then st
    else st.modifyCell e.1 fun cell =>
      e.2.foldl SudokuCell.togglePencilMark cell.clearPencilMarks) st

/-- Last phase of `fillPencilMarks`: add every (cell, digit) pair of the
candidate map into `possibleCellsForCandidate`, creating entries on
demand and never clearing stale ones. -/
def buildPcfc (m : List (Nat × List Int)) (p : List (Int × CellSet)) :
    List (Int × CellSet) :=
  m.foldl (fun p e =>
    e.2.foldl (fun p v =>
      let p := if (mapGet? p v).isSome then p else mapSet p v CellSet.empty
      mapModify p v fun cs => cs.add e.1) p) p

/-- `SudokuSolver.fillPencilMarks`: validate, rebuild the candidate map
from the values, push the pencil marks into the board state, and extend
the digit-to-cells index. -/
def fillPencilMarks (sol : Solver) : Option Solver :=
  if !(checkValueIsValid sol.sudoku.state) then none
  else
    let cfc := cfcHouseScan sol.sudoku.state
      (cfcInitGo sol.sudoku.state.cells 0 sol.candidatesForCell)
    let sud := (sol.sudoku.updateState (applyPencilUpdate cfc)).2
    let pcfc := buildPcfc cfc sol.possibleCellsForCandidate
    some { sudoku := sud, candidatesForCell := cfc,
           possibleCellsForCandidate := pcfc }

/-- The `/\d+/g` scan of the candidate-string importers: the maximal runs
of digit characters, each as a list of digit values. -/
def digitRunsGo : List Char → List Int → List (List Int) → List (List Int)
  | [], cur, acc => if cur.isEmpty then acc else acc ++ [cur.reverse]
  | c :: rest, cur, acc =>
    if 48 ≤ c.toNat ∧ c.toNat ≤ 57 then
      digitRunsGo rest (((c.toNat : Int) - 48) :: cur) acc
    else if cur.isEmpty then digitRunsGo rest [] acc
    else digitRunsGo rest [] (acc ++ [cur.reverse])

def digitRuns (code : List Char) : List (List Int) := digitRunsGo code [] []

/-- Re-adding a run into a cleared JS `Set`, in order, skipping repeats. -/
def setAddAll (s : List Int) (l : List Int) : List Int :=
  l.foldl (fun s d => if d ∈ s then s else s ++ [d]) s

/-- `SudokuState.fromCandidateString`: 81 digit runs; a one-digit run
marks the cell given with that value (whatever the cell was before), a
longer run replaces the cell's pencil marks.  A run count other than 81
throws. -/
def SudokuState.fromCandidateString (st : SudokuState) (code : List Char) :
    Option SudokuState :=
  let runs := digitRuns code
  if runs.length ≠ 81 then none
  else some (runs.enum.foldl (fun st e =>
    match e.2 with
    | [d] => st.modifyCell e.1 fun cell =>
        { cell with isGiven := true, value := some (JsVal.num d) }
    | run => st.modifyCell e.1 fun cell =>
        { cell with pencilMarks := setAddAll [] run }) st)

/-- `SudokuState.fillFromCandidateString`: like `fromCandidateString` but
skips given and already-valued cells, and single runs go through
`setValue`. -/
def SudokuState.fillFromCandidateString (st : SudokuState) (code : List Char) :
    Option SudokuState :=
  let runs := digitRuns code
  if runs.length ≠ 81 then none
  else some (runs.enum.foldl (fun st e =>
    let cell := st.getCellD e.1
    if cell.isGiven then st
    else if cell.value.isSome then st
    else match e.2 with
      | [d] => st.modifyCell e.1 fun cell => cell.setValue (some (JsVal.num d))
      | run => st.modifyCell e.1 fun cell =>
          { cell with pencilMarks := setAddAll [] run }) st)

/-- The classic test-suite board of the spec. -/
def classicChars : List Char := String.toList
  "53..7....6..195....98....6.8...6...34..8.3..17...2...6.6....28....419..5....8..79"

/-- The classic board parsed, wrapped in a solver and pencil-marked. -/
def classicFill : Option Solver :=
  (Sudoku.fromString classicChars).bind fun sud =>
    (mkSolver sud).bind fun sol => fillPencilMarks sol

/-- One dispatcher step on the pencil-marked classic board. -/
def classicRun : Option (Option Technique × Solver) :=
  classicFill.bind fun sol => solveOneStep sol

/-- A completed grid used to fill the given cells of the hand-built
boards below (the solution of the classic board). -/
def solvedChars : List Char := String.toList
  "534678912672195348198342567859761423426853791713924856961537284287419635345286179"

/-- Cells of an X-Wing gadget for digit 1: rows 1 and 3 (0-based 0 and 2)
each hold exactly two candidates of 1, in columns 1 and 3 (0-based 0 and
2), and r5c1 (index 36) holds a further candidate 1 in column 1.  All
other cells are given. -/
def xwingHoles : List Nat := [0, 2, 18, 20, 36]

def xwingCells : List SudokuCell :=
  (List.range 81).map fun i =>
    if i ∈ xwingHoles then
      { isGiven := false, value := none, candidates := [], pencilMarks := [1] }
    else
      { isGiven := true, value := some (charJsNum (solvedChars.getD i '.')),
        candidates := [], pencilMarks := [] }

def xwingTS : TechState :=
  { state := { cells := xwingCells },
    candidatesForCell := [(0, [1]), (2, [1]), (18, [1]), (20, [1]), (36, [1])],
    possibleCellsForCandidate := [(1, [0, 2, 18, 20, 36])] }

/-- A nearly solved board with four empty cells (indices 0, 1, 9, 10); the
block they share, their rows, columns and the block each have at least two
empty cells, so no full house exists, and cell 0 is a naked single on 5. -/
def wCells : List SudokuCell :=
  (List.range 81).map fun i =>
    if i = 0 then
      { isGiven := false, value := none, candidates := [], pencilMarks := [5] }
    else if i = 1 then
      { isGiven := false, value := none, candidates := [], pencilMarks := [3, 7] }
    else if i = 9 then
      { isGiven := false, value := none, candidates := [], pencilMarks := [6, 7] }
    else if i = 10 then
      { isGiven := false, value := none, candidates := [], pencilMarks := [7, 2] }
    else
      { isGiven := true, value := some (charJsNum (solvedChars.getD i '.')),
        candidates := [], pencilMarks := [] }

def wTS : TechState :=
  { state := { cells := wCells },
    candidatesForCell := [(0, [5]), (1, [3, 7]), (9, [6, 7]), (10, [7, 2])],
    possibleCellsForCandidate :=
      [(5, [0]), (3, [1]), (7, [1, 9, 10]), (6, [9]), (2, [10])] }

def solW : Solver :=
  { sudoku := { state := { cells := wCells }, currentStateIndex := 0,
                stateHistory := [{ cells := wCells }] },
    candidatesForCell := wTS.candidatesForCell,
    possibleCellsForCandidate := wTS.possibleCellsForCandidate }

/-- A board whose first cell is a given 5, all others blank. -/
def c7State : SudokuState :=
  { cells :=
      { isGiven := true, value := some (JsVal.num 5),
        candidates := [], pencilMarks := [] } :: List.replicate 80 blankCell }

/-- A candidate string of 81 single-digit runs, the first being 7. -/
def c7Input : List Char := '7' :: (List.replicate 80 [' ', '3']).flatten

/-- A length-80 value string of dots. -/
def dots80 : List Char := List.replicate 80 '.'

/-- Given cells keep their flag and value between two states. -/
def GivenPres (st st2 : SudokuState) : Prop :=
  ∀ i, (st.getCellD i).isGiven = true →
    (st2.getCellD i).isGiven = true ∧ (st2.getCellD i).value = (st.getCellD i).value

/-- Run a prefix of the solver list, keeping its map side effects. -/
def threadAll (l : List (Technique × (TechState → TechState))) (ts : TechState) :
    TechState :=
  l.foldl (fun ts tf => tf.2 ts) ts

/-- Every technique of the prefix leaves the board state unchanged (as
`updateState` tests it), each running on its predecessor's output. -/
def PrefixSilent : List (Technique × (TechState → TechState)) → TechState → Prop
  | [], _ => True
  | tf :: rest, ts => (tf.2 ts).state = ts.state ∧ PrefixSilent rest (tf.2 ts)

/-- Digit `d` appears as a value in the block, row or column of cell `i`. -/
def seenDigit (st : SudokuState) (i : Nat) (d : Int) : Bool :=
  (constrainsOfCell i).any fun house =>
    house.any fun c => (st.getCellD c).value == some (JsVal.num d)

/-- The candidate mask the spec prescribes after `initialize_candidates`:
1..9 minus the values seen in the cell's three houses. -/
def maskFun (st : SudokuState) (i : Nat) : List Int :=
  digits.filter fun d => !(seenDigit st i d)

/-- Erase from a candidate set each defined numeric value of a list. -/
def eraseValues (vals : List (Option JsVal)) (s : List Int) : List Int :=
  vals.foldl (fun s v =>
    match v with
    | some (JsVal.num n) => s.erase n
    | _ => s) s

/-- The fold of the house scan over a list of houses, restricted to one
cell: erase the values of each house containing the cell. -/
def scanErase (st : SudokuState) (hs : List CellSet) (j : Nat) (s : List Int) :
    List Int :=
  hs.foldl (fun s house =>
    if j ∈ house then eraseValues (houseValues st house) s else s) s

/-- A solver freshly built on an empty board. -/
def emptySolver : Solver :=
  { sudoku := Sudoku.new, candidatesForCell := [], possibleCellsForCandidate := [] }

/-- Claim C1 as stated: the dispatcher never changes the board state or
its history. -/
def boardUntouched (sol : Solver) : Bool :=
  match solveOneStep sol with
  | none => true
  | some r => decide (r.2.sudoku.state = sol.sudoku.state ∧
      r.2.sudoku.stateHistory = sol.sudoku.stateHistory)

def C1Claim : Prop := ∀ sol : Solver, boardUntouched sol = true

/-- Claim C2's technique order. -/
def claimedOrder : List Technique :=
  [Technique.fullHouse, Technique.hiddenSingle, Technique.nakedSingle,
   Technique.lockedCandidates, Technique.nakedSubset, Technique.hiddenSubset,
   Technique.basicFish, Technique.finnedFish, Technique.complexFish]

def C2Claim : Prop := solvers.map Prod.fst = claimedOrder

/-- Characters the spec allows in a value string. -/
def validValueChar (c : Char) : Prop :=
  c = '.' ∨ (48 ≤ c.toNat ∧ c.toNat ≤ 57)

/-- Claim C3 as stated: parsing fails whenever the length is not 81 or a
character is invalid. -/
def C3Claim : Prop := ∀ code : List Char,
  (code.length ≠ 81 ∨ ∃ c ∈ code, ¬ validValueChar c) →
  Sudoku.fromString code = none

/-- Claim C4 as stated, with refusal read as leaving the mask alone: an
elimination that would empty the mask of an unsolved cell is not
performed. -/
def C4Claim : Prop := ∀ (ts : TechState) (c : Nat) (d : Int),
  (ts.state.getCellD c).isGiven = false →
  (ts.state.getCellD c).value = none →
  (ts.state.getCellD c).pencilMarks.erase d = [] →
  ((deleteCandidate ts c d).state.getCellD c).pencilMarks =
    (ts.state.getCellD c).pencilMarks

/-- The X-Wing premise of claim C5 on the solver's candidate index: digit
`d` has exactly two candidate cells in each of the two rows, all four in
the two columns, and some cell of the columns outside the rows still
holds `d`. -/
def xwingPremise (ts : TechState) (r1 r2 c1 c2 : Nat) (d : Int) : Bool :=
  let pc := (mapGet? ts.possibleCellsForCandidate d).getD CellSet.empty
  decide (r1 ≠ r2) && decide (c1 ≠ c2) &&
  ((pc.inter (rowCells r1)).length == 2) &&
  ((pc.inter (rowCells r2)).length == 2) &&
  (((pc.inter (rowCells r1)) ++ (pc.inter (rowCells r2))).all fun c =>
    CellSet.has (colCells c1) c || CellSet.has (colCells c2) c) &&
  ((colCells c1 ++ colCells c2).any fun c =>
    !(CellSet.has (rowCells r1) c) && !(CellSet.has (rowCells r2) c) &&
    CellSet.has pc c)

/-- Claim C5's conclusion: `basicFish` changes the state and afterwards no
cell of the two columns outside the two rows holds `d`. -/
def basicFishDoesXwing (ts : TechState) (r1 r2 c1 c2 : Nat) (d : Int) : Bool :=
  let ts2 := basicFish ts
  decide (ts2 ≠ ts) &&
  ((colCells c1 ++ colCells c2).all fun c =>
    CellSet.has (rowCells r1) c || CellSet.has (rowCells r2) c ||
    !((ts2.state.getCellD c).pencilMarks.contains d))

def C5Claim : Prop := ∀ (ts : TechState) (r1 r2 c1 c2 : Nat) (d : Int),
  xwingPremise ts r1 r2 c1 c2 d = true → basicFishDoesXwing ts r1 r2 c1 c2 d = true

/-- The operations of claim C7 that do preserve given cells. -/
def C7Ops : Prop :=
  (∀ (cell : SudokuCell) (v : Option JsVal),
    cell.isGiven = true → cell.setValue v = cell) ∧
  (∀ (cell : SudokuCell) (d : Int),
    cell.isGiven = true → cell.toggleCandidate d = cell) ∧
  (∀ (cell : SudokuCell) (d : Int),
    cell.isGiven = true → cell.togglePencilMark d = cell) ∧
  (∀ (ts : TechState) (c : Nat) (v : Int),
    GivenPres ts.state (setCellValue ts c v).state) ∧
  (∀ (ts : TechState) (c : Nat) (d : Int) (i : Nat),
    ((deleteCandidate ts c d).state.getCellD i).isGiven =
      (ts.state.getCellD i).isGiven ∧
    ((deleteCandidate ts c d).state.getCellD i).value =
      (ts.state.getCellD i).value) ∧
  (∀ (sol : Solver) (r : Option Technique × Solver),
    solveOneStep sol = some r → GivenPres sol.sudoku.state r.2.sudoku.state) ∧
  (∀ (sol s1 : Solver),
    fillPencilMarks sol = some s1 → GivenPres sol.sudoku.state s1.sudoku.state) ∧
  (∀ (st : SudokuState) (code : List Char) (st2 : SudokuState),
    st.fillFromCandidateString code = some st2 → GivenPres st st2)

/-- Claim C7 as stated: all of the above and `fromCandidateString` too. -/
def C7Claim : Prop := C7Ops ∧
  ∀ (st : SudokuState) (code : List Char) (st2 : SudokuState),
    st.fromCandidateString code = some st2 → GivenPres st st2

theorem CellSet.mem_add {s : CellSet} {c x : Nat} : x ∈ s.add c ↔ x ∈ s ∨ x = c := by
  unfold CellSet.add
  by_cases h : c ∈ s
  · simp only [if_pos h]
    constructor
    · exact fun hx => Or.inl hx
    · rintro (hx | rfl)
      · exact hx
      · exact h
  · simp [if_neg h, List.mem_append]

theorem CellSet.mem_foldl_add (l : List Nat) :
    ∀ (u : CellSet) (x : Nat), x ∈ l.foldl CellSet.add u ↔ x ∈ u ∨ x ∈ l := by
  induction l with
  | nil => simp
  | cons a l ih =>
    intro u x
    rw [List.foldl_cons, ih, CellSet.mem_add]
    simp [or_assoc, or_comm (a := x = a)]

theorem CellSet.mem_union {a b : CellSet} {x : Nat} :
    x ∈ a.union b ↔ x ∈ a ∨ x ∈ b := by
  unfold CellSet.union
  rw [CellSet.mem_foldl_add, CellSet.mem_foldl_add]
  simp [CellSet.empty]

theorem CellSet.mem_inter {a b : CellSet} {x : Nat} :
    x ∈ a.inter b ↔ x ∈ a ∧ x ∈ b := by
  unfold CellSet.inter
  have key : ∀ (l : List Nat) (u : CellSet) (x : Nat),
      x ∈ l.foldl (fun u c => if c ∈ b then u.add c else u) u ↔
        x ∈ u ∨ (x ∈ l ∧ x ∈ b) := by
    intro l
    induction l with
    | nil => simp
    | cons a l ih =>
      intro u x
      rw [List.foldl_cons]
      by_cases hb : a ∈ b
      · rw [if_pos hb, ih, CellSet.mem_add]
        constructor
        · rintro ((h | rfl) | h)
          · exact Or.inl h
          · exact Or.inr ⟨List.mem_cons_self _ _, hb⟩
          · exact Or.inr ⟨List.mem_cons_of_mem _ h.1, h.2⟩
        · rintro (h | ⟨hm, hxb⟩)
          · exact Or.inl (Or.inl h)
          · rcases List.mem_cons.mp hm with rfl | hm
            · exact Or.inl (Or.inr rfl)
            · exact Or.inr ⟨hm, hxb⟩
      · rw [if_neg hb, ih]
        constructor
        · rintro (h | h)
          · exact Or.inl h
          · exact Or.inr ⟨List.mem_cons_of_mem _ h.1, h.2⟩
        · rintro (h | ⟨hm, hxb⟩)
          · exact Or.inl h
          · rcases List.mem_cons.mp hm with rfl | hm
            · exact absurd hxb hb
            · exact Or.inr ⟨hm, hxb⟩
  rw [key]
  simp [CellSet.empty]

theorem CellSet.mem_substract {a b : CellSet} {x : Nat} :
    x ∈ a.substract b ↔ x ∈ a ∧ ¬ x ∈ b := by
  unfold CellSet.substract
  have key : ∀ (l : List Nat) (u : CellSet) (x : Nat),
      x ∈ l.foldl (fun u c => if c ∈ b then u else u.add c) u ↔
        x ∈ u ∨ (x ∈ l ∧ ¬ x ∈ b) := by
    intro l
    induction l with
    | nil => simp
    | cons a l ih =>
      intro u x
      rw [List.foldl_cons]
      by_cases hb : a ∈ b
      · rw [if_pos hb, ih]
        constructor
        · rintro (h | h)
          · exact Or.inl h
          · exact Or.inr ⟨List.mem_cons_of_mem _ h.1, h.2⟩
        · rintro (h | ⟨hm, hxb⟩)
          · exact Or.inl h
          · rcases List.mem_cons.mp hm with rfl | hm
            · exact absurd hb hxb
            · exact Or.inr ⟨hm, hxb⟩
      · rw [if_neg hb, ih, CellSet.mem_add]
        constructor
        · rintro ((h | rfl) | h)
          · exact Or.inl h
          · exact Or.inr ⟨List.mem_cons_self _ _, hb⟩
          · exact Or.inr ⟨List.mem_cons_of_mem _ h.1, h.2⟩
        · rintro (h | ⟨hm, hxb⟩)
          · exact Or.inl (Or.inl h)
          · rcases List.mem_cons.mp hm with rfl | hm
            · exact Or.inl (Or.inr rfl)
            · exact Or.inr ⟨hm, hxb⟩
  rw [key]
  simp [CellSet.empty]

/-- C9.  The CellSet boolean algebra is correct: `union`, `intersection`
and `substract` return sets whose membership is the disjunction,
conjunction, and difference of the operands' memberships.  The
operations build fresh sets from their arguments (they are pure
functions here, mirroring the source, which only reads `this` and
`other` and writes into a `new CellSet()`), so the operands are
unchanged. -/
theorem cellSet_algebra_correct : ∀ (A B : CellSet) (x : Nat),
    ((A.union B).has x = (A.has x || B.has x)) ∧
    ((A.inter B).has x = (A.has x && B.has x)) ∧
    ((A.substract B).has x = (A.has x && !(B.has x))) := by
  intro A B x
  refine ⟨?_, ?_, ?_⟩
  · simp [CellSet.has, CellSet.mem_union, Bool.decide_or]
  · simp [CellSet.has, CellSet.mem_inter, Bool.decide_and]
  · simp [CellSet.has, CellSet.mem_substract]

theorem mem_setToggle {s : List Int} {d : Int} (hnd : s.Nodup) :
    d ∈ setToggle s d ↔ ¬ d ∈ s := by
  unfold setToggle
  by_cases h : d ∈ s
  · simp only [if_pos h]
    constructor
    · intro hmem
      exact absurd hmem (List.Nodup.not_mem_erase hnd)
    · intro hn
      exact absurd h hn
  · simp [if_neg h, h]

/-- C10.  Toggling a candidate or a pencil mark on a non-given cell always
clears the value, and flips the digit's membership. -/
theorem toggle_clears_value (cell : SudokuCell) (d : Int)
    (h : cell.isGiven = false) (hc : cell.candidates.Nodup)
    (hp : cell.pencilMarks.Nodup) :
    (cell.toggleCandidate d).value = none ∧
    (cell.togglePencilMark d).value = none ∧
    ((d ∈ (cell.toggleCandidate d).candidates) ↔ ¬ d ∈ cell.candidates) ∧
    ((d ∈ (cell.togglePencilMark d).pencilMarks) ↔ ¬ d ∈ cell.pencilMarks) := by
  unfold SudokuCell.toggleCandidate SudokuCell.togglePencilMark
  rw [h]
  simp only [Bool.false_eq_true, if_false]
  exact ⟨trivial, trivial, mem_setToggle hc, mem_setToggle hp⟩

theorem toggle_clears_value_witness :
    ({ isGiven := false, value := some (JsVal.num 4), candidates := [1],
       pencilMarks := [2] } : SudokuCell).isGiven = false ∧
    (({ isGiven := false, value := some (JsVal.num 4), candidates := [1],
        pencilMarks := [2] } : SudokuCell).toggleCandidate 1).value = none :=
  ⟨by decide,
   (toggle_clears_value
      { isGiven := false, value := some (JsVal.num 4), candidates := [1],
        pencilMarks := [2] }
      1 (by decide) (by decide) (by decide)).1⟩

theorem mapGet?_mapModify {κ α : Type} [DecidableEq κ]
    (m : List (κ × α)) (k : κ) (f : α → α) : ∀ k2 : κ,
    mapGet? (mapModify m k f) k2 =
      if k2 = k then (mapGet? m k2).map f else mapGet? m k2 := by
  induction m with
  | nil => intro k2; simp [mapModify, mapGet?]
  | cons e rest ih =>
    intro k2
    unfold mapModify
    by_cases he : e.1 = k
    · rw [if_pos he]
      unfold mapGet?
      by_cases h2 : k2 = k
      · rw [if_pos h2]
        simp [h2, he.symm]
      · have : ¬ k = k2 := fun hh => h2 hh.symm
        have he2 : ¬ e.1 = k2 := by rw [he]; exact this
        simp [this, he2, h2]
    · rw [if_neg he]
      unfold mapGet?
      by_cases he2 : e.1 = k2
      · have h2 : ¬ k2 = k := by
          intro hh
          exact he (he2.trans hh)
        simp [he2, h2]
      · simp [he2, ih k2]

theorem mapGet?_mapSet {κ α : Type} [DecidableEq κ]
    (m : List (κ × α)) (k : κ) (v : α) : ∀ k2 : κ,
    mapGet? (mapSet m k v) k2 = if k2 = k then some v else mapGet? m k2 := by
  induction m with
  | nil =>
    intro k2
    unfold mapSet mapGet?
    by_cases h : k = k2
    · simp [h]
    · have : ¬ k2 = k := fun hh => h hh.symm
      simp [h, this, mapGet?]
  | cons e rest ih =>
    intro k2
    unfold mapSet
    by_cases he : e.1 = k
    · rw [if_pos he]
      unfold mapGet?
      by_cases h2 : k2 = k
      · simp [h2]
      · have : ¬ k = k2 := fun hh => h2 hh.symm
        have he2 : ¬ e.1 = k2 := by rw [he]; exact this
        simp [this, he2, h2]
    · rw [if_neg he]
      unfold mapGet?
      by_cases he2 : e.1 = k2
      · have h2 : ¬ k2 = k := by
          intro hh
          exact he (he2.trans hh)
        simp [he2, h2]
      · simp [he2, ih k2]

theorem mapGet?_isSome_mem {κ α : Type} [DecidableEq κ] (m : List (κ × α)) (k : κ) :
    (mapGet? m k).isSome = true → k ∈ m.map Prod.fst := by
  induction m with
  | nil => simp [mapGet?]
  | cons e rest ih =>
    unfold mapGet?
    by_cases he : e.1 = k
    · intro _
      simp [← he]
    · intro h
      rw [if_neg he] at h
      simp only [List.map_cons, List.mem_cons]
      exact Or.inr (ih h)

theorem mapGet?_mapDel {κ α : Type} [DecidableEq κ]
    (m : List (κ × α)) (k : κ) (hnd : (m.map Prod.fst).Nodup) : ∀ k2 : κ,
    mapGet? (mapDel m k) k2 = if k2 = k then none else mapGet? m k2 := by
  induction m with
  | nil => intro k2; simp [mapDel, mapGet?]
  | cons e rest ih =>
    intro k2
    simp only [List.map_cons, List.nodup_cons] at hnd
    unfold mapDel
    by_cases he : e.1 = k
    · rw [if_pos he]
      by_cases h2 : k2 = k
      · subst h2
        rw [if_pos rfl]
        cases hg : mapGet? rest k2 with
        | none => rfl
        | some v =>
          exfalso
          apply hnd.1
          rw [he]
          exact mapGet?_isSome_mem rest k2 (by rw [hg]; rfl)
      · have : ¬ e.1 = k2 := by rw [he]; exact fun hh => h2 hh.symm
        simp [mapGet?, this, h2]
    · rw [if_neg he]
      unfold mapGet?
      by_cases he2 : e.1 = k2
      · have h2 : ¬ k2 = k := by
          intro hh
          exact he (he2.trans hh)
        simp [he2, h2]
      · simp [he2, ih hnd.2 k2]

theorem getCellD_modifyCell (st : SudokuState) (k : Nat) (f : SudokuCell → SudokuCell)
    (j : Nat) :
    (st.modifyCell k f).getCellD j =
      if j = k ∧ j < st.cells.length then f (st.getCellD j) else st.getCellD j := by
  unfold SudokuState.modifyCell SudokuState.getCellD
  simp only [List.getD_eq_getElem?_getD, List.getElem?_set]
  by_cases hk : k = j
  · subst hk
    by_cases hl : k < st.cells.length
    · simp [hl]
    · simp [hl, List.getElem?_eq_none (by omega : st.cells.length ≤ k)]
  · have : ¬ (j = k ∧ j < st.cells.length) := fun hh => hk hh.1.symm
    simp [hk, this]

theorem length_modifyCell (st : SudokuState) (k : Nat) (f : SudokuCell → SudokuCell) :
    (st.modifyCell k f).cells.length = st.cells.length := by
  unfold SudokuState.modifyCell
  exact List.length_set st.cells k _

theorem getCellD_oob (st : SudokuState) (j : Nat) (h : st.cells.length ≤ j) :
    st.getCellD j = blankCell := by
  unfold SudokuState.getCellD
  rw [List.getD_eq_getElem?_getD, List.getElem?_eq_none h]
  rfl

/-- C4 (amended).  `deleteCandidate` never refuses: it removes the digit
from the cell's pencil marks and from both index maps unconditionally,
with no emptiness check and no error channel; an empty mask on an
unsolved cell goes unreported. -/
theorem deleteCandidate_unconditional : ∀ (ts : TechState) (c : Nat) (d : Int),
    ((deleteCandidate ts c d).state.getCellD c).pencilMarks =
      (ts.state.getCellD c).pencilMarks.erase d ∧
    mapGet? (deleteCandidate ts c d).candidatesForCell c =
      (mapGet? ts.candidatesForCell c).map (fun s => s.erase d) ∧
    mapGet? (deleteCandidate ts c d).possibleCellsForCandidate d =
      (mapGet? ts.possibleCellsForCandidate d).map (fun s => s.del c) := by
  intro ts c d
  refine ⟨?_, ?_, ?_⟩
  · show ((ts.state.modifyCell c _).getCellD c).pencilMarks = _
    rw [getCellD_modifyCell]
    by_cases hl : c < ts.state.cells.length
    · simp [hl]
    · simp only [hl, and_false, if_false]
      rw [getCellD_oob ts.state c (by omega)]
      rfl
  · show mapGet? (mapModify ts.candidatesForCell c _) c = _
    rw [mapGet?_mapModify]
    simp
  · show mapGet? (mapModify ts.possibleCellsForCandidate d _) d = _
    rw [mapGet?_mapModify]
    simp

/-- C4 (counterexample).  On a concrete board the cell at index 0 is
unsolved with single mark 5; deleting 5 empties the mask silently instead
of refusing. -/
theorem deleteCandidate_no_refusal : ¬ C4Claim := fun h =>
  absurd (h wTS 0 5 (by decide) (by decide) (by decide)) (by decide)

theorem fromStringGo_isSome (code : List Char) : ∀ (cells : List SudokuCell) (i : Nat),
    (∀ j, j < code.length → 81 ≤ i + j → code.getD j '.' = '.') →
    (fromStringGo cells i code).isSome = true := by
  induction code with
  | nil =>
    intro cells i _
    rfl
  | cons c rest ih =>
    intro cells i h
    unfold fromStringGo
    by_cases hc : c = '.'
    · rw [if_pos hc]
      exact ih _ _ fun j hj hge => h (j + 1) (by simpa using Nat.succ_lt_succ hj) (by omega)
    · have hi : i < 81 := by
        by_contra hge
        exact hc (h 0 (by simp) (by omega))
      rw [if_neg hc, if_pos hi]
      exact ih _ _ fun j hj hge => h (j + 1) (by simpa using Nat.succ_lt_succ hj) (by omega)

/-- C3 (amended).  `Sudoku.fromString` performs no validation at all: any
input whose non-dot characters all sit at indices below 81 parses to a
board (non-digit characters included, stored as NaN values); in
particular a string of length 80 yields a board rather than a
`ParseError`.  Only a non-dot character at index 81 or beyond crashes
(with a TypeError, not a `ParseError`). -/
theorem fromString_no_validation (code : List Char)
    (h : ∀ j, j < code.length → 81 ≤ j → code.getD j '.' = '.') :
    (Sudoku.fromString code).isSome = true := by
  have hs := fromStringGo_isSome code (List.replicate 81 blankCell) 0
    fun j hj hge => h j hj (by omega)
  unfold Sudoku.fromString
  cases hg : fromStringGo (List.replicate 81 blankCell) 0 code with
  | some cells => simp
  | none =>
    rw [hg] at hs
    exact absurd hs (by simp)

theorem fromString_no_validation_witness :
    (Sudoku.fromString dots80).isSome = true :=
  fromString_no_validation dots80 (by
    intro j h1 h2
    exfalso
    have : dots80.length = 80 := by decide
    omega)

/-- C3 (counterexample).  The all-dots string of length 80 parses to a
board; no error of any kind is reported. -/
theorem fromString_length80_no_error : ¬ C3Claim := fun h =>
  absurd (h dots80 (Or.inl (by decide))) (by decide)

/-- C6.  On the classic board, after `fillPencilMarks` the cell r5c5
(index 40) is empty with single mark 5, and the first dispatcher step is
the naked-single technique placing 5 there. -/
theorem classic_first_action_naked_single :
    (classicFill.map fun sol =>
      ((sol.sudoku.state.getCellD 40).value,
       (sol.sudoku.state.getCellD 40).pencilMarks)) = some (none, [5]) ∧
    (classicRun.map fun r => (r.1, (r.2.sudoku.state.getCellD 40).value)) =
      some (some Technique.nakedSingle, some (JsVal.num 5)) := by
  constructor
  · decide
  · decide

/-- C5 (counterexample).  On a concrete board whose digit 1 forms an
X-Wing in rows 1 and 3, columns 1 and 3, with one extra candidate at
r5c1, `basicFish` does not fire at all: its line filter admits only lines
with at most `size` candidate cells, which excludes the cover column
carrying the would-be elimination. -/
theorem basicFish_misses_xwing : ¬ C5Claim := fun h =>
  absurd (h xwingTS 0 2 0 2 1 (by decide)) (by decide)

/-- C5 (amended).  On that board the premise holds, `basicFish` leaves
the state untouched, and it is the finned-fish technique (searched after
basic fish, with no size cap on its lines) that fires, eliminating 1
from r5c1 (index 36), the only cell of the cover columns outside the
base rows, and leaving the four base cells intact. -/
theorem finnedFish_does_xwing :
    xwingPremise xwingTS 0 2 0 2 1 = true ∧
    basicFish xwingTS = xwingTS ∧
    finnedFish xwingTS ≠ xwingTS ∧
    ((finnedFish xwingTS).state.getCellD 36).pencilMarks = [] ∧
    mapGet? (finnedFish xwingTS).possibleCellsForCandidate 1 =
      some [0, 2, 18, 20] ∧
    (∀ i, i ∈ ([0, 2, 18, 20] : List Nat) →
      ((finnedFish xwingTS).state.getCellD i).pencilMarks = [1]) := by
  refine ⟨by decide, by decide, by decide, by decide, by decide, by decide⟩

theorem runTechs_fst_none (l : List (Technique × (TechState → TechState))) :
    ∀ (ts ts2 : TechState), runTechs l ts = (none, ts2) → ts2.state = ts.state := by
  induction l with
  | nil =>
    intro ts ts2 h
    cases h
    rfl
  | cons tf rest ih =>
    intro ts ts2 h
    simp only [runTechs] at h
    split at h
    · next heq => exact (ih _ _ h).trans heq
    · cases h
  -- the second branch returns (some _, _), which cannot equal (none, _)

theorem runTechs_fst_some (l : List (Technique × (TechState → TechState))) :
    ∀ (ts ts2 : TechState) (t : Technique),
      runTechs l ts = (some t, ts2) → ts2.state ≠ ts.state := by
  induction l with
  | nil =>
    intro ts ts2 t h
    cases h
  | cons tf rest ih =>
    intro ts ts2 t h
    simp only [runTechs] at h
    split at h
    · next heq =>
      intro hcon
      exact ih _ _ _ h (hcon.trans heq.symm)
    · next hne =>
      cases h
      exact hne

/-- C1 (amended).  `solveOneStep` both finds and applies: when no
technique changes the state the board (state, history, index) is exactly
as before (though the solver's index maps may keep technique side
effects); when a technique fires, its mutated state is committed to the
board at once — the history's redo tail is truncated, the changed state
is appended, and the index advances.  Nothing is returned for the caller
to apply. -/
theorem solveOneStep_commits (sol : Solver) (r : Option Technique × Solver)
    (h : solveOneStep sol = some r) :
    (r.1 = none ∧ r.2.sudoku = sol.sudoku) ∨
    (∃ t, r.1 = some t ∧ r.2.sudoku.state ≠ sol.sudoku.state ∧
      r.2.sudoku.stateHistory =
        sol.sudoku.stateHistory.take (sol.sudoku.currentStateIndex + 1) ++
          [r.2.sudoku.state] ∧
      r.2.sudoku.currentStateIndex = sol.sudoku.currentStateIndex + 1) := by
  unfold solveOneStep at h
  rcases hrt : runTechs solvers sol.draft with ⟨opt, ts2⟩
  rw [hrt] at h
  cases opt with
  | none =>
    cases h
    left
    exact ⟨rfl, rfl⟩
  | some t =>
    simp only at h
    split at h
    · cases h
      right
      refine ⟨t, rfl, ?_, rfl, rfl⟩
      have := runTechs_fst_some solvers sol.draft ts2 t hrt
      exact this
    · cases h

theorem solveOneStep_commits_witness :
    ∃ r, solveOneStep solW = some r ∧
      ((r.1 = none ∧ r.2.sudoku = solW.sudoku) ∨
       (∃ t, r.1 = some t ∧ r.2.sudoku.state ≠ solW.sudoku.state ∧
         r.2.sudoku.stateHistory =
           solW.sudoku.stateHistory.take (solW.sudoku.currentStateIndex + 1) ++
             [r.2.sudoku.state] ∧
         r.2.sudoku.currentStateIndex = solW.sudoku.currentStateIndex + 1)) := by
  cases hr : solveOneStep solW with
  | none => exact absurd hr (by decide)
  | some r => exact ⟨r, rfl, solveOneStep_commits solW r hr⟩

/-- C1 (counterexample).  On a concrete board with a naked single,
`solveOneStep` mutates the board: the committed state differs and the
history grows. -/
theorem solveOneStep_mutates : ¬ C1Claim := fun h =>
  absurd (h solW) (by decide)

theorem runTechs_first_fire (l1 : List (Technique × (TechState → TechState))) :
    ∀ (l2 : List (Technique × (TechState → TechState))) (t : Technique)
      (f : TechState → TechState) (ts : TechState),
      PrefixSilent l1 ts →
      (f (threadAll l1 ts)).state ≠ (threadAll l1 ts).state →
      runTechs (l1 ++ (t, f) :: l2) ts = (some t, f (threadAll l1 ts)) := by
  induction l1 with
  | nil =>
    intro l2 t f ts _ hfire
    simp only [threadAll, List.foldl_nil] at hfire
    rw [List.nil_append]
    simp only [runTechs]
    rw [if_neg hfire]
    rfl
  | cons tf rest ih =>
    intro l2 t f ts hsilent hfire
    have hthread : threadAll (tf :: rest) ts = threadAll rest (tf.2 ts) := rfl
    rw [hthread] at hfire
    show runTechs (tf :: (rest ++ (t, f) :: l2)) ts = _
    simp only [runTechs]
    rw [if_pos hsilent.1]
    exact ih l2 t f (tf.2 ts) hsilent.2 hfire

/-- C2 (amended).  The dispatcher's order is FullHouse, NakedSingle,
HiddenSingle, LockedCandidates, HiddenSubset, NakedSubset, BasicFish,
FinnedFish, ComplexFish (naked before hidden single, hidden before naked
subset), and the first technique whose run changes the board state wins:
whenever every earlier technique leaves the state unchanged and
technique `t` changes it, the dispatcher reports `t` and `t`'s output. -/
theorem dispatcher_order_first_wins :
    solvers.map Prod.fst =
      [Technique.fullHouse, Technique.nakedSingle, Technique.hiddenSingle,
       Technique.lockedCandidates, Technique.hiddenSubset, Technique.nakedSubset,
       Technique.basicFish, Technique.finnedFish, Technique.complexFish] ∧
    ∀ (l1 l2 : List (Technique × (TechState → TechState)))
      (t : Technique) (f : TechState → TechState) (ts : TechState),
      solvers = l1 ++ (t, f) :: l2 →
      PrefixSilent l1 ts →
      (f (threadAll l1 ts)).state ≠ (threadAll l1 ts).state →
      runTechs solvers ts = (some t, f (threadAll l1 ts)) := by
  constructor
  · rfl
  · intro l1 l2 t f ts heq hsilent hfire
    rw [heq]
    exact runTechs_first_fire l1 l2 t f ts hsilent hfire

theorem dispatcher_order_first_wins_witness :
    runTechs solvers wTS =
      (some Technique.nakedSingle,
       nakedSingle (threadAll [(Technique.fullHouse, fullHouse)] wTS)) :=
  dispatcher_order_first_wins.2
    [(Technique.fullHouse, fullHouse)]
    [(Technique.hiddenSingle, solveHiddenSingle),
     (Technique.lockedCandidates, lockedCandidatesType),
     (Technique.hiddenSubset, hiddenSubset),
     (Technique.nakedSubset, nakedSubset),
     (Technique.basicFish, basicFish),
     (Technique.finnedFish, finnedFish),
     (Technique.complexFish, complexFish)]
    Technique.nakedSingle nakedSingle wTS rfl ⟨by decide, trivial⟩ (by decide)

/-- C2 (counterexample).  The claimed registry order (hidden single
before naked single, naked subset before hidden subset) is not the
order of the `solvers` array. -/
theorem dispatcher_order_differs : ¬ C2Claim := by
  intro h
  have := congrArg (fun l => l.getD 1 Technique.fullHouse) h
  revert this
  decide

theorem givenPres_refl (st : SudokuState) : GivenPres st st :=
  fun _ hg => ⟨hg, rfl⟩

theorem givenPres_trans {s1 s2 s3 : SudokuState}
    (h12 : GivenPres s1 s2) (h23 : GivenPres s2 s3) : GivenPres s1 s3 := by
  intro i hg
  obtain ⟨hg2, hv2⟩ := h12 i hg
  obtain ⟨hg3, hv3⟩ := h23 i hg2
  exact ⟨hg3, hv3.trans hv2⟩

theorem deleteCandidate_cell_fields (ts : TechState) (c : Nat) (d : Int) (i : Nat) :
    ((deleteCandidate ts c d).state.getCellD i).isGiven =
      (ts.state.getCellD i).isGiven ∧
    ((deleteCandidate ts c d).state.getCellD i).value =
      (ts.state.getCellD i).value := by
  simp only [deleteCandidate]
  rw [getCellD_modifyCell]
  split
  · exact ⟨rfl, rfl⟩
  · exact ⟨rfl, rfl⟩

theorem deleteCandidate_givenPres (ts : TechState) (c : Nat) (d : Int) :
    GivenPres ts.state (deleteCandidate ts c d).state := by
  intro i hg
  have h := deleteCandidate_cell_fields ts c d i
  rw [h.1]
  exact ⟨hg, h.2⟩

theorem foldl_givenPres_ts {α : Type} (f : TechState → α → TechState)
    (h : ∀ ts a, GivenPres ts.state (f ts a).state) (l : List α) :
    ∀ ts : TechState, GivenPres ts.state (l.foldl f ts).state := by
  induction l with
  | nil => intro ts; exact givenPres_refl _
  | cons a l ih =>
    intro ts
    rw [List.foldl_cons]
    exact givenPres_trans (h ts a) (ih (f ts a))

theorem foldl_givenPres_flag {α : Type}
    (f : TechState × Bool → α → TechState × Bool)
    (h : ∀ p a, GivenPres p.1.state (f p a).1.state) (l : List α) :
    ∀ p : TechState × Bool, GivenPres p.1.state (l.foldl f p).1.state := by
  induction l with
  | nil => intro p; exact givenPres_refl _
  | cons a l ih =>
    intro p
    rw [List.foldl_cons]
    exact givenPres_trans (h p a) (ih (f p a))

theorem foldl_givenPres_st {α : Type} (f : SudokuState → α → SudokuState)
    (h : ∀ st a, GivenPres st (f st a)) (l : List α) :
    ∀ st : SudokuState, GivenPres st (l.foldl f st) := by
  induction l with
  | nil => intro st; exact givenPres_refl _
  | cons a l ih =>
    intro st
    rw [List.foldl_cons]
    exact givenPres_trans (h st a) (ih (f st a))

theorem setValue_given (cell : SudokuCell) (v : Option JsVal)
    (h : cell.isGiven = true) : cell.setValue v = cell := by
  unfold SudokuCell.setValue
  simp [h]

theorem toggleCandidate_given (cell : SudokuCell) (d : Int)
    (h : cell.isGiven = true) : cell.toggleCandidate d = cell := by
  unfold SudokuCell.toggleCandidate
  simp [h]

theorem togglePencilMark_given (cell : SudokuCell) (d : Int)
    (h : cell.isGiven = true) : cell.togglePencilMark d = cell := by
  unfold SudokuCell.togglePencilMark
  simp [h]

theorem modify_setValue_givenPres (st : SudokuState) (c : Nat) (v : Option JsVal) :
    GivenPres st (st.modifyCell c fun cell => cell.setValue v) := by
  intro i hg
  rw [getCellD_modifyCell]
  split
  · rw [setValue_given _ _ hg]
    exact ⟨hg, rfl⟩
  · exact ⟨hg, rfl⟩

theorem setCellValue_givenPres (ts : TechState) (c : Nat) (v : Int) :
    GivenPres ts.state (setCellValue ts c v).state := by
  simp only [setCellValue]
  have step : ∀ (ts3 : TechState) (oc : Nat),
      GivenPres ts3.state (if oc = c then ts3 else deleteCandidate ts3 oc v).state := by
    intro ts3 oc
    split
    · exact givenPres_refl _
    · exact deleteCandidate_givenPres ts3 oc v
  have h1 := foldl_givenPres_ts (fun ts2 cand => deleteCandidate ts2 c cand)
    (fun ts2 cand => deleteCandidate_givenPres ts2 c cand)
    ((mapGet? ts.candidatesForCell c).getD []) ts
  refine givenPres_trans h1 ?_
  refine givenPres_trans ?_
    (foldl_givenPres_ts _ (fun ts2 house => foldl_givenPres_ts _ step house ts2)
      (constrainsOfCell c) _)
  exact modify_setValue_givenPres _ c (some (JsVal.num v))

theorem findSome?_prop {α β : Type} (l : List α) (g : α → Option β) (P : β → Prop)
    (h : ∀ a, a ∈ l → ∀ b, g a = some b → P b) :
    ∀ b, l.findSome? g = some b → P b := by
  induction l with
  | nil =>
    intro b hb
    simp [List.findSome?] at hb
  | cons a l ih =>
    intro b hb
    rw [List.findSome?_cons] at hb
    cases hg : g a with
    | some c =>
      rw [hg] at hb
      cases hb
      exact h a (List.mem_cons_self _ _) _ hg
    | none =>
      rw [hg] at hb
      exact ih (fun a2 ha2 => h a2 (List.mem_cons_of_mem _ ha2)) b hb

theorem orElse_prop {β : Type} (P : β → Prop) (a : Option β) (b : Unit → Option β)
    (ha : ∀ x, a = some x → P x) (hb : ∀ x, b () = some x → P x) :
    ∀ x, a.orElse b = some x → P x := by
  intro x hx
  cases a with
  | some y =>
    have hy : some y = some x := hx
    cases hy
    exact ha x rfl
  | none => exact hb x hx

theorem applyFound_givenPres (ts : TechState) (o : Option TechState)
    (h : ∀ ts2, o = some ts2 → GivenPres ts.state ts2.state) :
    GivenPres ts.state (applyFound ts o).state := by
  cases o with
  | none => exact givenPres_refl _
  | some ts2 => exact h ts2 rfl


theorem fullHouse_givenPres (ts : TechState) :
    GivenPres ts.state (fullHouse ts).state := by
  unfold fullHouse
  apply applyFound_givenPres
  unfold fullHouseSearch
  refine findSome?_prop _ _ (fun x : TechState => GivenPres ts.state x.state) ?_
  intro house _ b hb
  dsimp only at hb
  split at hb
  · cases hb
    exact setCellValue_givenPres ts _ _
  · cases hb

theorem nakedSingle_givenPres (ts : TechState) :
    GivenPres ts.state (nakedSingle ts).state := by
  unfold nakedSingle
  apply applyFound_givenPres
  unfold nakedSingleSearch
  refine findSome?_prop _ _ (fun x : TechState => GivenPres ts.state x.state) ?_
  intro house _ b hb
  refine findSome?_prop _ _ (fun x : TechState => GivenPres ts.state x.state) ?_ b hb
  intro c _ b2 hb2
  dsimp only at hb2
  split at hb2
  · cases hb2
  · split at hb2
    · cases hb2
      exact setCellValue_givenPres ts _ _
    · cases hb2

theorem hiddenSingle_givenPres (ts : TechState) :
    GivenPres ts.state (solveHiddenSingle ts).state := by
  unfold solveHiddenSingle
  apply applyFound_givenPres
  unfold hiddenSingleSearch
  refine findSome?_prop _ _ (fun x : TechState => GivenPres ts.state x.state) ?_
  intro house _ b hb
  refine findSome?_prop _ _ (fun x : TechState => GivenPres ts.state x.state) ?_ b hb
  intro v _ b2 hb2
  split at hb2
  · cases hb2
  · split at hb2
    · cases hb2
      exact setCellValue_givenPres ts _ _
    · cases hb2

theorem lockedCheck_prop (ts : TechState) (A B : CellSet) :
    ∀ x, lockedCheck ts A B = some x → GivenPres ts.state x.state := by
  intro x hx
  unfold lockedCheck at hx
  dsimp only at hx
  split at hx
  · cases hx
  · revert hx
    refine findSome?_prop _ _ (fun x : TechState => GivenPres ts.state x.state) ?_ x
    intro v _ b hb
    split at hb
    · cases hb
    · split at hb
      · split at hb
        · cases hb
        · cases hb
          exact foldl_givenPres_ts _
            (fun ts2 c => deleteCandidate_givenPres ts2 c v) _ ts
      · cases hb

theorem lockedCandidates_givenPres (ts : TechState) :
    GivenPres ts.state (lockedCandidatesType ts).state := by
  unfold lockedCandidatesType
  apply applyFound_givenPres
  unfold lockedSearch
  refine findSome?_prop _ _ (fun x : TechState => GivenPres ts.state x.state) ?_
  intro block _ b hb
  refine orElse_prop (fun x : TechState => GivenPres ts.state x.state) _ _ ?_ ?_ b hb
  · refine findSome?_prop _ _ (fun x : TechState => GivenPres ts.state x.state) ?_
    intro row _ b2 hb2
    refine orElse_prop (fun x : TechState => GivenPres ts.state x.state) _ _ ?_ ?_ b2 hb2
    · exact lockedCheck_prop ts block row
    · exact lockedCheck_prop ts row block
  · refine findSome?_prop _ _ (fun x : TechState => GivenPres ts.state x.state) ?_
    intro col _ b2 hb2
    refine orElse_prop (fun x : TechState => GivenPres ts.state x.state) _ _ ?_ ?_ b2 hb2
    · exact lockedCheck_prop ts block col
    · exact lockedCheck_prop ts col block

theorem hiddenSubset_givenPres (ts : TechState) :
    GivenPres ts.state (hiddenSubset ts).state := by
  unfold hiddenSubset
  apply applyFound_givenPres
  unfold hiddenSubsetSearch
  refine findSome?_prop _ _ (fun x : TechState => GivenPres ts.state x.state) ?_
  intro house _ b hb
  dsimp only at hb
  revert hb
  refine findSome?_prop _ _ (fun x : TechState => GivenPres ts.state x.state) ?_ b
  intro size _ b2 hb2
  split at hb2
  · cases hb2
  · revert hb2
    refine findSome?_prop _ _ (fun x : TechState => GivenPres ts.state x.state) ?_ b2
    intro subset _ b3 hb3
    split at hb3
    · split at hb3
      · cases hb3
      · cases hb3
        exact foldl_givenPres_ts _
          (fun ts2 (p : Nat × Int) => deleteCandidate_givenPres ts2 p.1 p.2) _ ts
    · cases hb3

theorem nsStep_givenPres (p : TechState × Bool) (c : Nat) (v : Int) :
    GivenPres p.1.state (nsStep p c v).1.state := by
  unfold nsStep
  split
  · split
    · exact deleteCandidate_givenPres p.1 c v
    · exact givenPres_refl _
  · exact givenPres_refl _

theorem nsFold_givenPres (vals : List Int) (ids : List Nat) (cells : List Nat) :
    ∀ p : TechState × Bool,
    GivenPres p.1.state
      (cells.foldl (fun p c => if c ∈ ids then p
        else vals.foldl (fun p v => nsStep p c v) p) p).1.state := by
  refine foldl_givenPres_flag _ ?_ cells
  intro p c
  dsimp only
  split
  · exact givenPres_refl _
  · exact foldl_givenPres_flag _ (fun p2 v => nsStep_givenPres p2 c v) vals p

theorem nsFold2_givenPres (vals : List Int) (ids : List Nat) (houses : List CellSet) :
    ∀ p : TechState × Bool,
    GivenPres p.1.state
      (houses.foldl (fun p other =>
        if !(CellSet.isSubsetOf ids other) then p
        else other.foldl (fun p c => if c ∈ ids then p
          else vals.foldl (fun p v => nsStep p c v) p) p) p).1.state := by
  refine foldl_givenPres_flag _ ?_ houses
  intro p other
  dsimp only
  split
  · exact givenPres_refl _
  · exact nsFold_givenPres vals ids other p

theorem nakedSubsetCheck_prop (ts : TechState) (house : CellSet) (size : Nat) :
    ∀ x, nakedSubsetCheck ts house size = some x → GivenPres ts.state x.state := by
  unfold nakedSubsetCheck
  refine findSome?_prop _ _ (fun x : TechState => GivenPres ts.state x.state) ?_
  intro subset _ b hb
  dsimp only at hb
  split at hb
  · split at hb
    · cases hb
      exact givenPres_trans (nsFold_givenPres _ _ house (ts, false))
        (nsFold2_givenPres _ _ allHouses _)
    · cases hb
  · cases hb

theorem nakedSubset_givenPres (ts : TechState) :
    GivenPres ts.state (nakedSubset ts).state := by
  unfold nakedSubset
  apply applyFound_givenPres
  unfold nakedSubsetSearch
  refine findSome?_prop _ _ (fun x : TechState => GivenPres ts.state x.state) ?_
  intro house _ b hb
  refine findSome?_prop _ _ (fun x : TechState => GivenPres ts.state x.state) ?_ b hb
  intro size _ b2 hb2
  exact nakedSubsetCheck_prop ts house size b2 hb2

theorem fishCheck_prop (ts : TechState) (v : Int) (base cover : List CellSet) :
    ∀ x, fishCheck ts v base cover = some x → GivenPres ts.state x.state := by
  intro x hx
  unfold fishCheck at hx
  dsimp only at hx
  split at hx
  · cases hx
  · split at hx
    · cases hx
    · cases hx
      exact foldl_givenPres_ts _ (fun ts2 c => deleteCandidate_givenPres ts2 c v) _ ts

theorem finCheck_prop (ts : TechState) (v : Int) (base cover : List CellSet) :
    ∀ x, finCheck ts v base cover = some x → GivenPres ts.state x.state := by
  intro x hx
  unfold finCheck at hx
  dsimp only at hx
  split at hx
  · cases hx
  · cases hx
    exact foldl_givenPres_ts _ (fun ts2 c => deleteCandidate_givenPres ts2 c v) _ ts

theorem basicFish_givenPres (ts : TechState) :
    GivenPres ts.state (basicFish ts).state := by
  unfold basicFish
  apply applyFound_givenPres
  unfold basicFishSearch
  refine findSome?_prop _ _ (fun x : TechState => GivenPres ts.state x.state) ?_
  intro size _ b hb
  refine findSome?_prop _ _ (fun x : TechState => GivenPres ts.state x.state) ?_ b hb
  intro v _ b2 hb2
  dsimp only at hb2
  revert hb2
  refine findSome?_prop _ _ (fun x : TechState => GivenPres ts.state x.state) ?_ b2
  intro colSet _ b3 hb3
  refine findSome?_prop _ _ (fun x : TechState => GivenPres ts.state x.state) ?_ b3 hb3
  intro rowSet _ b4 hb4
  refine orElse_prop (fun x : TechState => GivenPres ts.state x.state) _ _ ?_ ?_ b4 hb4
  · exact fishCheck_prop ts v colSet rowSet
  · exact fishCheck_prop ts v rowSet colSet

theorem finnedFishGen_givenPres (flag : Bool) (ts : TechState) :
    GivenPres ts.state (finnedFishGen flag ts).state := by
  unfold finnedFishGen
  apply applyFound_givenPres
  unfold finnedFishSearch
  refine findSome?_prop _ _ (fun x : TechState => GivenPres ts.state x.state) ?_
  intro size _ b hb
  refine findSome?_prop _ _ (fun x : TechState => GivenPres ts.state x.state) ?_ b hb
  intro v _ b2 hb2
  dsimp only at hb2
  split at hb2
  · revert hb2
    refine findSome?_prop _ _ (fun x : TechState => GivenPres ts.state x.state) ?_ b2
    intro colSet _ b3 hb3
    refine findSome?_prop _ _ (fun x : TechState => GivenPres ts.state x.state) ?_ b3 hb3
    intro rowSet _ b4 hb4
    refine orElse_prop (fun x : TechState => GivenPres ts.state x.state) _ _ ?_ ?_ b4 hb4
    · exact finCheck_prop ts v colSet rowSet
    · exact finCheck_prop ts v rowSet colSet
  · revert hb2
    refine orElse_prop (fun x : TechState => GivenPres ts.state x.state) _ _ ?_ ?_ b2
    · refine findSome?_prop _ _ (fun x : TechState => GivenPres ts.state x.state) ?_
      intro colSet _ b3 hb3
      split at hb3
      · cases hb3
      · revert hb3
        refine findSome?_prop _ _ (fun x : TechState => GivenPres ts.state x.state) ?_ b3
        intro rowSet _ b4 hb4
        refine orElse_prop (fun x : TechState => GivenPres ts.state x.state) _ _ ?_ ?_ b4 hb4
        · exact finCheck_prop ts v colSet rowSet
        · exact finCheck_prop ts v rowSet colSet
    · refine findSome?_prop _ _ (fun x : TechState => GivenPres ts.state x.state) ?_
      intro rowSet _ b3 hb3
      split at hb3
      · cases hb3
      · revert hb3
        refine findSome?_prop _ _ (fun x : TechState => GivenPres ts.state x.state) ?_ b3
        intro colSet _ b4 hb4
        refine orElse_prop (fun x : TechState => GivenPres ts.state x.state) _ _ ?_ ?_ b4 hb4
        · exact finCheck_prop ts v colSet rowSet
        · exact finCheck_prop ts v rowSet colSet

theorem techs_givenPres : ∀ tf ∈ solvers, ∀ ts : TechState,
    GivenPres ts.state (tf.2 ts).state := by
  intro tf htf ts
  simp only [solvers, List.mem_cons, List.not_mem_nil, or_false] at htf
  rcases htf with rfl | rfl | rfl | rfl | rfl | rfl | rfl | rfl | rfl
  · exact fullHouse_givenPres ts
  · exact nakedSingle_givenPres ts
  · exact hiddenSingle_givenPres ts
  · exact lockedCandidates_givenPres ts
  · exact hiddenSubset_givenPres ts
  · exact nakedSubset_givenPres ts
  · exact basicFish_givenPres ts
  · exact finnedFishGen_givenPres false ts
  · exact finnedFishGen_givenPres true ts

theorem runTechs_givenPres :
    ∀ (l : List (Technique × (TechState → TechState))),
    (∀ tf ∈ l, ∀ ts : TechState, GivenPres ts.state (tf.2 ts).state) →
    ∀ ts : TechState, GivenPres ts.state (runTechs l ts).2.state := by
  intro l
  induction l with
  | nil => intro _ ts; exact givenPres_refl _
  | cons tf rest ih =>
    intro h ts
    simp only [runTechs]
    split
    · exact givenPres_trans (h tf (List.mem_cons_self _ _) ts)
        (ih (fun tf2 htf2 => h tf2 (List.mem_cons_of_mem _ htf2)) (tf.2 ts))
    · exact h tf (List.mem_cons_self _ _) ts

theorem solveOneStep_givenPres (sol : Solver) (r : Option Technique × Solver)
    (h : solveOneStep sol = some r) :
    GivenPres sol.sudoku.state r.2.sudoku.state := by
  unfold solveOneStep at h
  rcases hrt : runTechs solvers sol.draft with ⟨opt, ts2⟩
  rw [hrt] at h
  have hg : GivenPres sol.sudoku.state ts2.state := by
    have h2 := runTechs_givenPres solvers techs_givenPres sol.draft
    rw [hrt] at h2
    exact h2
  cases opt with
  | none =>
    cases h
    exact givenPres_refl _
  | some t =>
    simp only at h
    split at h
    · cases h
      exact hg
    · cases h

theorem applyPencilUpdate_givenPres (m : List (Nat × List Int)) (st : SudokuState) :
    GivenPres st (applyPencilUpdate m st) := by
  unfold applyPencilUpdate
  refine foldl_givenPres_st _ ?_ m st
  intro st e
  dsimp only
  split
  · exact givenPres_refl _
  · next hcond =>
    intro i hg
    rw [getCellD_modifyCell]
    split
    · next hcase =>
      exfalso
      apply hcond
      rw [← hcase.1]
      simp [hg]
    · exact ⟨hg, rfl⟩

theorem fillPencilMarks_givenPres (sol s1 : Solver)
    (h : fillPencilMarks sol = some s1) :
    GivenPres sol.sudoku.state s1.sudoku.state := by
  unfold fillPencilMarks at h
  split at h
  · cases h
  · cases h
    show GivenPres _ ((sol.sudoku.updateState _).2.state)
    unfold Sudoku.updateState
    dsimp only
    split
    · exact givenPres_refl _
    · exact applyPencilUpdate_givenPres _ _

theorem fillFrom_givenPres (st : SudokuState) (code : List Char)
    (st2 : SudokuState) (h : st.fillFromCandidateString code = some st2) :
    GivenPres st st2 := by
  unfold SudokuState.fillFromCandidateString at h
  dsimp only at h
  split at h
  · cases h
  · cases h
    refine foldl_givenPres_st _ ?_ _ st
    intro st e
    dsimp only
    split
    · exact givenPres_refl _
    · split
      · exact givenPres_refl _
      · split
        · exact modify_setValue_givenPres st e.1 _
        · intro i hg
          rw [getCellD_modifyCell]
          split
          · exact ⟨hg, rfl⟩
          · exact ⟨hg, rfl⟩

/-- C7 (amended).  Given cells are immutable under every operation except
`SudokuState.fromCandidateString`: `setValue`, both toggles, the solver's
`setCellValue` and `deleteCandidate`, the whole `solveOneStep` dispatcher
(hence every technique), `fillPencilMarks`, and the guarded importer
`fillFromCandidateString` all preserve the flag and value of every given
cell; `fromCandidateString`, by contrast, overwrites the value of any
cell whose digit run has length one, given or not. -/
theorem given_cells_immutable : C7Ops := by
  refine ⟨?_, ?_, ?_, ?_, ?_, ?_, ?_, ?_⟩
  · exact fun cell v h => setValue_given cell v h
  · exact fun cell d h => toggleCandidate_given cell d h
  · exact fun cell d h => togglePencilMark_given cell d h
  · exact fun ts c v => setCellValue_givenPres ts c v
  · exact fun ts c d i => deleteCandidate_cell_fields ts c d i
  · exact fun sol r h => solveOneStep_givenPres sol r h
  · exact fun sol s1 h => fillPencilMarks_givenPres sol s1 h
  · exact fun st code st2 h => fillFrom_givenPres st code st2 h

theorem given_cells_immutable_witness :
    (c7State.getCellD 0).isGiven = true ∧
    (c7State.getCellD 0).setValue none = c7State.getCellD 0 ∧
    ∃ r, solveOneStep solW = some r ∧
      (r.2.sudoku.state.getCellD 2).isGiven = true ∧
      (r.2.sudoku.state.getCellD 2).value = (solW.sudoku.state.getCellD 2).value := by
  refine ⟨by decide, given_cells_immutable.1 _ none (by decide), ?_⟩
  cases hr : solveOneStep solW with
  | none => exact absurd hr (by decide)
  | some r =>
    exact ⟨r, rfl, given_cells_immutable.2.2.2.2.2.1 solW r hr 2 (by decide)⟩

/-- C7 (counterexample).  `fromCandidateString` overwrites the value of a
given cell: on a board whose first cell is a given 5, importing a
candidate string whose first run is the single digit 7 turns the cell's
value into 7. -/
theorem fromCandidateString_overwrites_given : ¬ C7Claim := by
  intro h
  cases hr : c7State.fromCandidateString c7Input with
  | none => exact absurd hr (by decide)
  | some st2 =>
    have h0 := h.2 c7State c7Input st2 hr 0 (by decide)
    have hv7 : (st2.getCellD 0).value = some (JsVal.num 7) := by
      have hm : (c7State.fromCandidateString c7Input).map
          (fun s => (s.getCellD 0).value) = some (some (JsVal.num 7)) := by decide
      rw [hr] at hm
      simpa using hm
    rw [hv7] at h0
    have h5 : (c7State.getCellD 0).value = some (JsVal.num 5) := by decide
    rw [h5] at h0
    exact absurd h0.2 (by decide)

theorem keys_mapModify {κ α : Type} [DecidableEq κ]
    (m : List (κ × α)) (k : κ) (f : α → α) :
    (mapModify m k f).map Prod.fst = m.map Prod.fst := by
  induction m with
  | nil => rfl
  | cons e rest ih =>
    unfold mapModify
    by_cases he : e.1 = k
    · simp [he]
    · simp [he, ih]

theorem mem_keys_mapSet {κ α : Type} [DecidableEq κ]
    (m : List (κ × α)) (k : κ) (v : α) (j : κ) :
    j ∈ (mapSet m k v).map Prod.fst ↔ j ∈ m.map Prod.fst ∨ j = k := by
  induction m with
  | nil => simp [mapSet]
  | cons e rest ih =>
    unfold mapSet
    by_cases he : e.1 = k
    · rw [if_pos he]
      simp only [List.map_cons, List.mem_cons]
      rw [he]
      tauto
    · simp only [if_neg he, List.map_cons, List.mem_cons, ih]
      tauto

theorem nodup_keys_mapSet {κ α : Type} [DecidableEq κ]
    (m : List (κ × α)) (k : κ) (v : α)
    (hnd : (m.map Prod.fst).Nodup) : ((mapSet m k v).map Prod.fst).Nodup := by
  induction m with
  | nil => simp [mapSet]
  | cons e rest ih =>
    simp only [List.map_cons, List.nodup_cons] at hnd
    unfold mapSet
    by_cases he : e.1 = k
    · rw [if_pos he]
      simp only [List.map_cons, List.nodup_cons]
      rw [he] at hnd
      exact hnd
    · simp only [if_neg he, List.map_cons, List.nodup_cons]
      refine ⟨?_, ih hnd.2⟩
      intro hmem
      rcases (mem_keys_mapSet rest k v e.1).mp hmem with h | h
      · exact hnd.1 h
      · exact he h

theorem mem_keys_mapDel {κ α : Type} [DecidableEq κ]
    (m : List (κ × α)) (k : κ) (j : κ) :
    j ∈ (mapDel m k).map Prod.fst → j ∈ m.map Prod.fst := by
  induction m with
  | nil => simp [mapDel]
  | cons e rest ih =>
    unfold mapDel
    by_cases he : e.1 = k
    · rw [if_pos he]
      intro h
      simp only [List.map_cons, List.mem_cons]
      exact Or.inr h
    · rw [if_neg he]
      simp only [List.map_cons, List.mem_cons]
      rintro (rfl | h)
      · exact Or.inl rfl
      · exact Or.inr (ih h)

theorem nodup_keys_mapDel {κ α : Type} [DecidableEq κ]
    (m : List (κ × α)) (k : κ)
    (hnd : (m.map Prod.fst).Nodup) : ((mapDel m k).map Prod.fst).Nodup := by
  induction m with
  | nil => simp [mapDel]
  | cons e rest ih =>
    simp only [List.map_cons, List.nodup_cons] at hnd
    unfold mapDel
    by_cases he : e.1 = k
    · rw [if_pos he]
      exact hnd.2
    · rw [if_neg he]
      simp only [List.map_cons, List.nodup_cons]
      exact ⟨fun hmem => hnd.1 (mem_keys_mapDel rest k e.1 hmem), ih hnd.2⟩

/-- Lookup characterization of the first `fillPencilMarks` phase: every
index in the processed window maps to the full digit set when its cell is
empty and non-given, and is absent when the cell is filled or given;
indices outside the window keep their old binding. -/
theorem mapGet?_cfcInitGo (cells : List SudokuCell) :
    ∀ (i : Nat) (m : List (Nat × List Int)) (j : Nat),
    (m.map Prod.fst).Nodup →
    mapGet? (cfcInitGo cells i m) j =
      if i ≤ j ∧ j < i + cells.length then
        (if (cells.getD (j - i) blankCell).isGiven ∨
            (cells.getD (j - i) blankCell).value.isSome then none else some digits)
      else mapGet? m j := by
  induction cells with
  | nil =>
    intro i m j hnd
    simp only [cfcInitGo, List.length_nil, Nat.add_zero]
    have : ¬ (i ≤ j ∧ j < i) := by omega
    rw [if_neg this]
  | cons c rest ih =>
    intro i m j hnd
    have hlen : (c :: rest).length = rest.length + 1 := by
      simp only [List.length_cons]
    have hnd2 : ∀ v : List Int,
        (((if c.isGiven ∨ c.value.isSome then mapDel m i else mapSet m i v)).map
          Prod.fst).Nodup := by
      intro v
      split
      · exact nodup_keys_mapDel m i hnd
      · exact nodup_keys_mapSet m i v hnd
    simp only [cfcInitGo]
    rw [ih (i + 1) _ j (by
      split
      · exact nodup_keys_mapDel m i hnd
      · exact nodup_keys_mapSet m i digits hnd)]
    by_cases hwin : i + 1 ≤ j ∧ j < i + 1 + rest.length
    · obtain ⟨hw1, hw2⟩ := hwin
      rw [if_pos ⟨hw1, hw2⟩]
      rw [if_pos (show i ≤ j ∧ j < i + (c :: rest).length by
        rw [hlen]; exact ⟨by omega, by omega⟩)]
      have hji : j - i = (j - (i + 1)) + 1 := by omega
      rw [hji]
      simp only [List.getD_cons_succ]
    · rw [if_neg hwin]
      by_cases hji : j = i
      · subst hji
        rw [if_pos (show j ≤ j ∧ j < j + (c :: rest).length by
          rw [hlen]; exact ⟨Nat.le_refl j, by omega⟩)]
        have hz : j - j = 0 := by omega
        rw [hz]
        simp only [List.getD_cons_zero]
        split
        · next hfill =>
          rw [mapGet?_mapDel m j hnd j, if_pos rfl,
            if_pos (show c.isGiven = true ∨ c.value.isSome = true by
              simpa using hfill)]
        · next hfill =>
          rw [mapGet?_mapSet m j digits j, if_pos rfl,
            if_neg (show ¬ (c.isGiven = true ∨ c.value.isSome = true) by
              simpa using hfill)]
      · have hout : ¬ (i ≤ j ∧ j < i + (c :: rest).length) := by
          rw [hlen]
          intro hcon
          exact hwin ⟨by omega, by omega⟩
        rw [if_neg hout]
        split
        · rw [mapGet?_mapDel m i hnd j, if_neg hji]
        · rw [mapGet?_mapSet m i digits j, if_neg hji]

theorem nodup_keys_cfcInitGo (cells : List SudokuCell) :
    ∀ (i : Nat) (m : List (Nat × List Int)),
    (m.map Prod.fst).Nodup → ((cfcInitGo cells i m).map Prod.fst).Nodup := by
  induction cells with
  | nil => intro i m h; exact h
  | cons c rest ih =>
    intro i m h
    simp only [cfcInitGo]
    split
    · exact ih (i + 1) _ (nodup_keys_mapDel m i h)
    · exact ih (i + 1) _ (nodup_keys_mapSet m i digits h)

theorem keys_cfcInitGo_bound (cells : List SudokuCell) :
    ∀ (i : Nat) (m : List (Nat × List Int)) (k : Nat),
    k ∈ (cfcInitGo cells i m).map Prod.fst →
    k ∈ m.map Prod.fst ∨ (i ≤ k ∧ k < i + cells.length) := by
  induction cells with
  | nil => intro i m k h; exact Or.inl h
  | cons c rest ih =>
    intro i m k h
    simp only [cfcInitGo] at h
    split at h
    · rcases ih (i + 1) _ k h with h2 | h2
      · rcases List.mem_map.mp (mem_keys_mapDel m i k h2) with ⟨e, he, rfl⟩
        exact Or.inl (List.mem_map.mpr ⟨e, he, rfl⟩)
      · right
        simp only [List.length_cons]
        omega
    · rcases ih (i + 1) _ k h with h2 | h2
      · rcases (mem_keys_mapSet m i digits k).mp h2 with h3 | rfl
        · exact Or.inl h3
        · right
          simp only [List.length_cons]
          omega
      · right
        simp only [List.length_cons]
        omega

/-- The let-bound house scan of the source is the named per-house fold. -/
theorem cfcHouseScan_eq (st : SudokuState) (m : List (Nat × List Int)) :
    cfcHouseScan st m = allHouses.foldl (houseScanStep st) m := rfl

theorem mapGet?_valuesEraseFold (vals : List (Option JsVal)) :
    ∀ (m : List (Nat × List Int)) (c j : Nat),
    mapGet? (valuesEraseFold vals c m) j =
      if j = c then (mapGet? m j).map (eraseValues vals) else mapGet? m j := by
  induction vals with
  | nil =>
    intro m c j
    show mapGet? m j =
      if j = c then (mapGet? m j).map (eraseValues []) else mapGet? m j
    by_cases hj : j = c
    · rw [if_pos hj]
      cases mapGet? m j <;> rfl
    · rw [if_neg hj]
  | cons v vs ih =>
    intro m c j
    show mapGet? (valuesEraseFold vs c _) j = _
    by_cases hj : j = c
    · subst hj
      cases v with
      | none =>
        rw [ih m j j, if_pos rfl, if_pos rfl]
        cases mapGet? m j <;> rfl
      | some jv =>
        cases jv with
        | nan =>
          rw [ih m j j, if_pos rfl, if_pos rfl]
          cases mapGet? m j <;> rfl
        | num n =>
          rw [ih _ j j, if_pos rfl, if_pos rfl,
            mapGet?_mapModify m j (fun s => s.erase n) j, if_pos rfl]
          cases mapGet? m j <;> rfl
    · rw [if_neg hj]
      cases v with
      | none => rw [ih m c j, if_neg hj]
      | some jv =>
        cases jv with
        | nan => rw [ih m c j, if_neg hj]
        | num n =>
          rw [ih _ c j, if_neg hj,
            mapGet?_mapModify m c (fun s => s.erase n) j, if_neg hj]

theorem mapGet?_houseScanStep (st : SudokuState) (house : CellSet)
    (hnd : house.Nodup) :
    ∀ (m : List (Nat × List Int)) (j : Nat),
    mapGet? (houseScanStep st m house) j =
      if j ∈ house then (mapGet? m j).map (eraseValues (houseValues st house))
      else mapGet? m j := by
  unfold houseScanStep
  have key : ∀ (cells : List Nat), cells.Nodup →
      ∀ (m : List (Nat × List Int)) (j : Nat),
      mapGet? (cells.foldl
        (fun m c => valuesEraseFold (houseValues st house) c m) m) j =
        if j ∈ cells then (mapGet? m j).map (eraseValues (houseValues st house))
        else mapGet? m j := by
    intro cells
    induction cells with
    | nil =>
      intro _ m j
      rw [if_neg (List.not_mem_nil j)]
      rfl
    | cons c cs ih =>
      intro hnd2 m j
      rw [List.foldl_cons]
      obtain ⟨hc, hcs⟩ := List.nodup_cons.mp hnd2
      rw [ih hcs _ j]
      by_cases hj : j = c
      · subst hj
        rw [if_neg (fun hmem => hc hmem),
          mapGet?_valuesEraseFold _ _ _ _, if_pos rfl,
          if_pos (List.mem_cons_self _ _)]
      · rw [mapGet?_valuesEraseFold _ _ _ _, if_neg hj]
        by_cases hcs2 : j ∈ cs
        · rw [if_pos hcs2, if_pos (List.mem_cons_of_mem _ hcs2)]
        · rw [if_neg hcs2, if_neg (by
            intro hmem
            rcases List.mem_cons.mp hmem with rfl | hmem2
            · exact hj rfl
            · exact hcs2 hmem2)]
  exact key house hnd

theorem mapGet?_houseScanFold (st : SudokuState) (hs : List CellSet)
    (hnd : ∀ h ∈ hs, h.Nodup) :
    ∀ (m : List (Nat × List Int)) (j : Nat),
    mapGet? (hs.foldl (houseScanStep st) m) j =
      (mapGet? m j).map (scanErase st hs j) := by
  induction hs with
  | nil =>
    intro m j
    show mapGet? m j = (mapGet? m j).map (fun s => s)
    cases mapGet? m j <;> rfl
  | cons h hs ih =>
    intro m j
    rw [List.foldl_cons]
    rw [ih (fun h2 hh2 => hnd h2 (List.mem_cons_of_mem _ hh2)) _ j]
    rw [mapGet?_houseScanStep st h (hnd h (List.mem_cons_self _ _)) m j]
    show _ = (mapGet? m j).map (fun s =>
      scanErase st hs j (if j ∈ h then eraseValues (houseValues st h) s else s))
    by_cases hj : j ∈ h
    · rw [if_pos hj]
      cases mapGet? m j with
      | none => rfl
      | some s =>
        simp only [Option.map_some']
        rw [if_pos hj]
    · rw [if_neg hj]
      cases mapGet? m j with
      | none => rfl
      | some s =>
        simp only [Option.map_some']
        rw [if_neg hj]

theorem eraseValues_eq_filter (vals : List (Option JsVal)) :
    ∀ (s : List Int), s.Nodup →
    eraseValues vals s =
      s.filter (fun d => !(vals.contains (some (JsVal.num d)))) := by
  induction vals with
  | nil =>
    intro s _
    show s = List.filter _ s
    symm
    rw [List.filter_eq_self]
    intro a _
    rfl
  | cons v vs ih =>
    intro s hnd
    cases v with
    | none =>
      show eraseValues vs s = _
      rw [ih s hnd]
      refine List.filter_congr ?_
      intro d _
      rfl
    | some jv =>
      cases jv with
      | nan =>
        show eraseValues vs s = _
        rw [ih s hnd]
        refine List.filter_congr ?_
        intro d _
        rfl
      | num n =>
        show eraseValues vs (s.erase n) = _
        rw [List.Nodup.erase_eq_filter hnd n]
        rw [ih _ (List.Nodup.filter _ hnd)]
        rw [List.filter_filter]
        refine List.filter_congr ?_
        intro d _
        rw [Bool.eq_iff_iff]
        simp only [Bool.and_eq_true, Bool.not_eq_true', List.contains_cons,
          Bool.or_eq_false_iff, bne_iff_ne, ne_eq, beq_eq_false_iff_ne]
        constructor
        · rintro ⟨h1, h2⟩
          refine ⟨?_, h1⟩
          intro hcon
          apply h2
          cases hcon
          rfl
        · rintro ⟨h1, h2⟩
          refine ⟨h2, ?_⟩
          intro hcon
          apply h1
          rw [hcon]

theorem allHouses_nodup : ∀ h ∈ allHouses, h.Nodup := by decide

theorem houses_filter_eq : ∀ j, j < 81 →
    allHouses.filter (fun h => decide (j ∈ h)) = constrainsOfCell j := by decide

theorem scanErase_eq_filterFold (st : SudokuState) :
    ∀ (hs : List CellSet) (j : Nat) (s : List Int),
    scanErase st hs j s =
      (hs.filter (fun h => decide (j ∈ h))).foldl
        (fun s house => eraseValues (houseValues st house) s) s := by
  intro hs
  induction hs with
  | nil => intro j s; rfl
  | cons h hs ih =>
    intro j s
    show scanErase st hs j (if j ∈ h then _ else s) = _
    rw [List.filter_cons]
    by_cases hj : j ∈ h
    · rw [if_pos hj, if_pos (by simpa using hj), List.foldl_cons]
      exact ih j _
    · rw [if_neg hj, if_neg (by simpa using hj)]
      exact ih j s

theorem contains_map_values (f : Nat → Option JsVal) (x : Option JsVal) :
    ∀ (l : List Nat), (l.map f).contains x = l.any fun c => f c == x := by
  intro l
  induction l with
  | nil => rfl
  | cons c cs ih =>
    simp only [List.map_cons, List.contains_cons, List.any_cons, ih]
    rw [Bool.eq_iff_iff]
    simp only [Bool.or_eq_true, beq_iff_eq]
    constructor
    · rintro (h | h)
      · exact Or.inl h.symm
      · exact Or.inr h
    · rintro (h | h)
      · exact Or.inl h.symm
      · exact Or.inr h

theorem scanErase_eq_maskFun (st : SudokuState) (j : Nat) (hj : j < 81) :
    scanErase st allHouses j digits = maskFun st j := by
  rw [scanErase_eq_filterFold, houses_filter_eq j hj]
  show eraseValues (houseValues st (colCells (j % 9)))
      (eraseValues (houseValues st (rowCells (j / 9)))
        (eraseValues (houseValues st (blockCells (blockIdxOf j))) digits)) = _
  have hd : (digits : List Int).Nodup := by decide
  rw [eraseValues_eq_filter _ digits hd]
  rw [eraseValues_eq_filter _ _ (List.Nodup.filter _ hd)]
  rw [eraseValues_eq_filter _ _ (List.Nodup.filter _ (List.Nodup.filter _ hd))]
  rw [List.filter_filter, List.filter_filter]
  unfold maskFun
  refine List.filter_congr ?_
  intro d _
  rw [Bool.eq_iff_iff]
  simp only [Bool.and_eq_true, Bool.not_eq_true', seenDigit, constrainsOfCell,
    List.any_cons, List.any_nil, Bool.or_eq_false_iff, houseValues,
    contains_map_values]
  tauto

theorem toggleFold_pencil (L : List Int) :
    ∀ (cell : SudokuCell), cell.isGiven = false → cell.value = none →
    L.Nodup → (∀ d ∈ L, d ∉ cell.pencilMarks) →
    L.foldl SudokuCell.togglePencilMark cell =
      { cell with pencilMarks := cell.pencilMarks ++ L } := by
  induction L with
  | nil =>
    intro cell hg hv _ _
    show cell = _
    obtain ⟨g, v, cand, marks⟩ := cell
    simp
  | cons d L ih =>
    intro cell hg hv hnd hdis
    rw [List.foldl_cons]
    have hstep : cell.togglePencilMark d =
        { cell with value := none, pencilMarks := cell.pencilMarks ++ [d] } := by
      unfold SudokuCell.togglePencilMark setToggle
      rw [hg]
      simp only [Bool.false_eq_true, if_false]
      rw [if_neg (hdis d (List.mem_cons_self _ _))]
    rw [hstep]
    obtain ⟨hnd1, hnd2⟩ := List.nodup_cons.mp hnd
    rw [ih _ (by exact hg) rfl hnd2 (by
      intro d2 hd2
      rw [List.mem_append]
      rintro (hin | hin)
      · exact hdis d2 (List.mem_cons_of_mem _ hd2) hin
      · rcases List.mem_singleton.mp hin with rfl
        exact hnd1 hd2)]
    obtain ⟨g, v, cand, marks⟩ := cell
    simp only at hv
    subst hv
    simp [List.append_assoc]

theorem toggleFold_preserve (L : List Int) :
    ∀ (cell : SudokuCell), cell.value = none →
    (L.foldl SudokuCell.togglePencilMark cell).value = none ∧
    (L.foldl SudokuCell.togglePencilMark cell).isGiven = cell.isGiven ∧
    (L.foldl SudokuCell.togglePencilMark cell).candidates = cell.candidates := by
  induction L with
  | nil => intro cell hv; exact ⟨hv, rfl, rfl⟩
  | cons d L ih =>
    intro cell hv
    rw [List.foldl_cons]
    unfold SudokuCell.togglePencilMark
    by_cases hg : cell.isGiven
    · rw [if_pos hg]
      exact ih cell hv
    · rw [if_neg hg]
      exact ih _ rfl

theorem applyPencilUpdate_skip (m : List (Nat × List Int)) :
    ∀ (st : SudokuState) (j : Nat), (∀ e ∈ m, e.1 ≠ j) →
    (applyPencilUpdate m st).getCellD j = st.getCellD j := by
  induction m with
  | nil => intro st j _; rfl
  | cons e rest ih =>
    intro st j hne
    unfold applyPencilUpdate
    rw [List.foldl_cons]
    show (applyPencilUpdate rest _).getCellD j = _
    rw [ih _ j fun e2 he2 => hne e2 (List.mem_cons_of_mem _ he2)]
    show (if ((st.getCellD e.1).isGiven || (st.getCellD e.1).value.isSome) = true
        then st
        else st.modifyCell e.1 fun cell =>
          e.2.foldl SudokuCell.togglePencilMark cell.clearPencilMarks).getCellD j
      = st.getCellD j
    split
    · rfl
    · rw [getCellD_modifyCell]
      rw [if_neg (fun hcon => hne e (List.mem_cons_self _ _) hcon.1.symm)]

theorem applyPencilUpdate_length (m : List (Nat × List Int)) :
    ∀ (st : SudokuState),
    (applyPencilUpdate m st).cells.length = st.cells.length := by
  induction m with
  | nil => intro st; rfl
  | cons e rest ih =>
    intro st
    unfold applyPencilUpdate
    rw [List.foldl_cons]
    show (applyPencilUpdate rest _).cells.length = _
    rw [ih _]
    show (if ((st.getCellD e.1).isGiven || (st.getCellD e.1).value.isSome) = true
        then st
        else st.modifyCell e.1 fun cell =>
          e.2.foldl SudokuCell.togglePencilMark cell.clearPencilMarks).cells.length
      = st.cells.length
    split
    · rfl
    · exact length_modifyCell st e.1 _

theorem isSome_false_eq_none {α : Type} {o : Option α} (h : o.isSome = false) :
    o = none := by
  cases o
  · rfl
  · simp at h

theorem pencilModify_preserve (st : SudokuState) (c : Nat) (L : List Int)
    (j : Nat) (_hg : (st.getCellD c).isGiven = false)
    (hv : (st.getCellD c).value = none) :
    (((st.modifyCell c fun cell =>
        L.foldl SudokuCell.togglePencilMark cell.clearPencilMarks).getCellD
          j).value = (st.getCellD j).value) ∧
    (((st.modifyCell c fun cell =>
        L.foldl SudokuCell.togglePencilMark cell.clearPencilMarks).getCellD
          j).isGiven = (st.getCellD j).isGiven) ∧
    (((st.modifyCell c fun cell =>
        L.foldl SudokuCell.togglePencilMark cell.clearPencilMarks).getCellD
          j).candidates = (st.getCellD j).candidates) := by
  rw [getCellD_modifyCell]
  split
  · next hcase =>
    have hval : ((st.getCellD j).clearPencilMarks).value = none := by
      rw [hcase.1]
      exact hv
    have hp := toggleFold_preserve L ((st.getCellD j).clearPencilMarks) hval
    refine ⟨?_, ?_, ?_⟩
    · rw [hp.1, hcase.1, hv]
    · exact hp.2.1
    · exact hp.2.2
  · exact ⟨rfl, rfl, rfl⟩

theorem applyPencilUpdate_preserve (m : List (Nat × List Int)) :
    ∀ (st : SudokuState) (j : Nat),
    ((applyPencilUpdate m st).getCellD j).value = (st.getCellD j).value ∧
    ((applyPencilUpdate m st).getCellD j).isGiven = (st.getCellD j).isGiven ∧
    ((applyPencilUpdate m st).getCellD j).candidates =
      (st.getCellD j).candidates := by
  induction m with
  | nil => intro st j; exact ⟨rfl, rfl, rfl⟩
  | cons e rest ih =>
    intro st j
    unfold applyPencilUpdate
    rw [List.foldl_cons]
    show ((applyPencilUpdate rest _).getCellD j).value = _ ∧ _
    obtain ⟨ih1, ih2, ih3⟩ := ih
      (if ((st.getCellD e.1).isGiven || (st.getCellD e.1).value.isSome) = true
        then st
        else st.modifyCell e.1 fun cell =>
          e.2.foldl SudokuCell.togglePencilMark cell.clearPencilMarks) j
    refine ⟨ih1.trans ?_, ih2.trans ?_, ih3.trans ?_⟩ <;>
    · split
      · rfl
      · next hcond =>
        simp only [Bool.or_eq_true, not_or, Bool.not_eq_true] at hcond
        have h2 := pencilModify_preserve st e.1 e.2 j hcond.1
          (isSome_false_eq_none hcond.2)
        first
        | exact h2.1
        | exact h2.2.1
        | exact h2.2.2

theorem applyPencilUpdate_lookup (m : List (Nat × List Int)) :
    ∀ (st : SudokuState) (j : Nat) (s : List Int),
    (m.map Prod.fst).Nodup →
    mapGet? m j = some s →
    j < st.cells.length →
    (st.getCellD j).isGiven = false →
    (st.getCellD j).value = none →
    s.Nodup →
    (applyPencilUpdate m st).getCellD j =
      { st.getCellD j with pencilMarks := s } := by
  induction m with
  | nil =>
    intro st j s _ hget
    cases hget
  | cons e rest ih =>
    intro st j s hnd hget hlen hgiv hval hsnd
    simp only [List.map_cons, List.nodup_cons] at hnd
    unfold applyPencilUpdate
    rw [List.foldl_cons]
    show (applyPencilUpdate rest _).getCellD j = _
    by_cases hej : e.1 = j
    · have hs : e.2 = s := by
        unfold mapGet? at hget
        rw [if_pos hej] at hget
        cases hget
        rfl
      have hcond : ¬ (((st.getCellD e.1).isGiven ||
          (st.getCellD e.1).value.isSome) = true) := by
        rw [hej]
        simp [hgiv, hval]
      rw [applyPencilUpdate_skip rest _ j (by
        intro e2 he2 hcon
        exact hnd.1 (by
          rw [hej, ← hcon]
          exact List.mem_map.mpr ⟨e2, he2, rfl⟩))]
      show (if ((st.getCellD e.1).isGiven || (st.getCellD e.1).value.isSome) = true
          then st
          else st.modifyCell e.1 fun cell =>
            e.2.foldl SudokuCell.togglePencilMark cell.clearPencilMarks).getCellD j
        = _
      rw [if_neg hcond]
      rw [getCellD_modifyCell]
      rw [if_pos ⟨hej.symm, hlen⟩]
      rw [toggleFold_pencil e.2 ((st.getCellD j).clearPencilMarks)
        hgiv hval (hs ▸ hsnd) (fun d _ hmem => List.not_mem_nil d hmem)]
      rw [hs]
      rfl
    · have hget2 : mapGet? rest j = some s := by
        unfold mapGet? at hget
        rw [if_neg hej] at hget
        exact hget
      by_cases hcond : ((st.getCellD e.1).isGiven ||
          (st.getCellD e.1).value.isSome) = true
      · show (applyPencilUpdate rest
          (if ((st.getCellD e.1).isGiven || (st.getCellD e.1).value.isSome) = true
            then st
            else st.modifyCell e.1 fun cell =>
              e.2.foldl SudokuCell.togglePencilMark cell.clearPencilMarks)).getCellD j
          = _
        rw [if_pos hcond]
        exact ih st j s hnd.2 hget2 hlen hgiv hval hsnd
      · show (applyPencilUpdate rest
          (if ((st.getCellD e.1).isGiven || (st.getCellD e.1).value.isSome) = true
            then st
            else st.modifyCell e.1 fun cell =>
              e.2.foldl SudokuCell.togglePencilMark cell.clearPencilMarks)).getCellD j
          = _
        rw [if_neg hcond]
        have hcell : (st.modifyCell e.1 fun cell =>
            e.2.foldl SudokuCell.togglePencilMark cell.clearPencilMarks).getCellD j
            = st.getCellD j := by
          rw [getCellD_modifyCell]
          rw [if_neg (fun hcase => hej hcase.1.symm)]
        rw [ih _ j s hnd.2 hget2 (by
            rw [length_modifyCell]
            exact hlen)
          (by rw [hcell]; exact hgiv) (by rw [hcell]; exact hval) hsnd]
        rw [hcell]

theorem updateState_snd_state (sud : Sudoku) (f : SudokuState → SudokuState) :
    (sud.updateState f).2.state = f sud.state := by
  unfold Sudoku.updateState
  show (if f sud.state = sud.state then ((false : Bool), sud)
    else (true, sud.pushState (f sud.state))).2.state = f sud.state
  split
  · next h => exact h.symm
  · rfl

theorem keys_valuesEraseFold (vals : List (Option JsVal)) :
    ∀ (m : List (Nat × List Int)) (c : Nat),
    (valuesEraseFold vals c m).map Prod.fst = m.map Prod.fst := by
  induction vals with
  | nil => intro m c; rfl
  | cons v vs ih =>
    intro m c
    unfold valuesEraseFold
    rw [List.foldl_cons]
    show (valuesEraseFold vs c _).map Prod.fst = _
    rw [ih]
    cases v with
    | none => rfl
    | some jv =>
      cases jv with
      | num n => exact keys_mapModify m c _
      | nan => rfl

theorem keys_houseScanStep (st : SudokuState) (house : CellSet) :
    ∀ (m : List (Nat × List Int)),
    (houseScanStep st m house).map Prod.fst = m.map Prod.fst := by
  unfold houseScanStep
  have key : ∀ (cells : List Nat) (m : List (Nat × List Int)),
      (cells.foldl (fun m c => valuesEraseFold (houseValues st house) c m)
        m).map Prod.fst = m.map Prod.fst := by
    intro cells
    induction cells with
    | nil => intro m; rfl
    | cons c cs ih =>
      intro m
      rw [List.foldl_cons, ih]
      exact keys_valuesEraseFold _ m c
  intro m
  exact key house m

theorem keys_houseScanFold (st : SudokuState) :
    ∀ (hs : List CellSet) (m : List (Nat × List Int)),
    (hs.foldl (houseScanStep st) m).map Prod.fst = m.map Prod.fst := by
  intro hs
  induction hs with
  | nil => intro m; rfl
  | cons h hs ih =>
    intro m
    rw [List.foldl_cons, ih, keys_houseScanStep]

theorem list_all_congr {α : Type} (f g : α → Bool) :
    ∀ (l : List α), (∀ x ∈ l, f x = g x) → l.all f = l.all g := by
  intro l
  induction l with
  | nil => intro _; rfl
  | cons a l ih =>
    intro h
    simp only [List.all_cons]
    rw [h a (List.mem_cons_self a l),
      ih fun x hx => h x (List.mem_cons_of_mem a hx)]

theorem list_any_congr {α : Type} (f g : α → Bool) :
    ∀ (l : List α), (∀ x ∈ l, f x = g x) → l.any f = l.any g := by
  intro l
  induction l with
  | nil => intro _; rfl
  | cons a l ih =>
    intro h
    simp only [List.any_cons]
    rw [h a (List.mem_cons_self a l),
      ih fun x hx => h x (List.mem_cons_of_mem a hx)]

theorem list_filter_congr {α : Type} (f g : α → Bool) :
    ∀ (l : List α), (∀ x ∈ l, f x = g x) → l.filter f = l.filter g := by
  intro l
  induction l with
  | nil => intro _; rfl
  | cons a l ih =>
    intro h
    rw [List.filter_cons, List.filter_cons, h a (List.mem_cons_self a l),
      ih fun x hx => h x (List.mem_cons_of_mem a hx)]

theorem checkValueIsValid_congr (st1 st2 : SudokuState)
    (hv : ∀ j, (st2.getCellD j).value = (st1.getCellD j).value) :
    checkValueIsValid st2 = checkValueIsValid st1 := by
  unfold checkValueIsValid
  refine list_all_congr _ _ allHouses fun house _ => ?_
  refine list_all_congr _ _ house fun c1 _ => ?_
  refine list_all_congr _ _ house fun c2 _ => ?_
  rw [hv c1, hv c2]

theorem maskFun_congr (st1 st2 : SudokuState)
    (hv : ∀ j, (st2.getCellD j).value = (st1.getCellD j).value) (i : Nat) :
    maskFun st2 i = maskFun st1 i := by
  unfold maskFun
  refine list_filter_congr _ _ digits fun d _ => ?_
  unfold seenDigit
  refine congrArg (fun b => !b) ?_
  refine list_any_congr _ _ (constrainsOfCell i) fun house _ => ?_
  refine list_any_congr _ _ house fun c _ => ?_
  rw [hv c]

theorem fillPencilMarks_spec (sol : Solver)
    (hval : checkValueIsValid sol.sudoku.state = true)
    (h81 : sol.sudoku.state.cells.length = 81)
    (hnd : (sol.candidatesForCell.map Prod.fst).Nodup)
    (hbd : ∀ k ∈ sol.candidatesForCell.map Prod.fst, k < 81) :
    ∃ sol1 : Solver, fillPencilMarks sol = some sol1 ∧
      sol1.sudoku.state.cells.length = 81 ∧
      (sol1.candidatesForCell.map Prod.fst).Nodup ∧
      (∀ k ∈ sol1.candidatesForCell.map Prod.fst, k < 81) ∧
      (∀ j, (sol1.sudoku.state.getCellD j).value =
        (sol.sudoku.state.getCellD j).value) ∧
      (∀ j, (sol1.sudoku.state.getCellD j).isGiven =
        (sol.sudoku.state.getCellD j).isGiven) ∧
      (∀ j, j < 81 → (sol.sudoku.state.getCellD j).isGiven = false →
        (sol.sudoku.state.getCellD j).value = none →
        (sol1.sudoku.state.getCellD j).pencilMarks =
          maskFun sol.sudoku.state j) := by
  have hkeys : (cfcHouseScan sol.sudoku.state
      (cfcInitGo sol.sudoku.state.cells 0 sol.candidatesForCell)).map Prod.fst =
      (cfcInitGo sol.sudoku.state.cells 0 sol.candidatesForCell).map Prod.fst := by
    rw [cfcHouseScan_eq]
    exact keys_houseScanFold sol.sudoku.state allHouses _
  have hndc : ((cfcHouseScan sol.sudoku.state
      (cfcInitGo sol.sudoku.state.cells 0
        sol.candidatesForCell)).map Prod.fst).Nodup := by
    rw [hkeys]
    exact nodup_keys_cfcInitGo _ 0 _ hnd
  have hbdc : ∀ k ∈ (cfcHouseScan sol.sudoku.state
      (cfcInitGo sol.sudoku.state.cells 0
        sol.candidatesForCell)).map Prod.fst, k < 81 := by
    intro k hk
    rw [hkeys] at hk
    rcases keys_cfcInitGo_bound _ 0 _ k hk with h | h
    · exact hbd k h
    · omega
  have hget : ∀ j, j < 81 →
      (sol.sudoku.state.getCellD j).isGiven = false →
      (sol.sudoku.state.getCellD j).value = none →
      mapGet? (cfcHouseScan sol.sudoku.state
        (cfcInitGo sol.sudoku.state.cells 0 sol.candidatesForCell)) j =
        some (scanErase sol.sudoku.state allHouses j digits) := by
    intro j hj hgiv hvn
    rw [cfcHouseScan_eq]
    rw [mapGet?_houseScanFold sol.sudoku.state allHouses allHouses_nodup]
    rw [mapGet?_cfcInitGo sol.sudoku.state.cells 0 sol.candidatesForCell j hnd]
    rw [if_pos ⟨Nat.zero_le j, by omega⟩]
    have hcell : sol.sudoku.state.cells.getD (j - 0) blankCell =
        sol.sudoku.state.getCellD j := by
      rw [Nat.sub_zero]
      exact rfl
    rw [hcell]
    rw [if_neg (by rw [hgiv, hvn]; simp)]
    rfl
  refine ⟨⟨(sol.sudoku.updateState (applyPencilUpdate
      (cfcHouseScan sol.sudoku.state
        (cfcInitGo sol.sudoku.state.cells 0 sol.candidatesForCell)))).2,
    cfcHouseScan sol.sudoku.state
      (cfcInitGo sol.sudoku.state.cells 0 sol.candidatesForCell),
    buildPcfc
      (cfcHouseScan sol.sudoku.state
        (cfcInitGo sol.sudoku.state.cells 0 sol.candidatesForCell))
      sol.possibleCellsForCandidate⟩, ?_, ?_, ?_, ?_, ?_, ?_, ?_⟩
  · unfold fillPencilMarks
    rw [hval]
    rfl
  · show ((sol.sudoku.updateState _).2.state).cells.length = 81
    rw [updateState_snd_state, applyPencilUpdate_length]
    exact h81
  · exact hndc
  · exact hbdc
  · intro j
    show (((sol.sudoku.updateState _).2.state).getCellD j).value = _
    rw [updateState_snd_state]
    exact (applyPencilUpdate_preserve _ sol.sudoku.state j).1
  · intro j
    show (((sol.sudoku.updateState _).2.state).getCellD j).isGiven = _
    rw [updateState_snd_state]
    exact (applyPencilUpdate_preserve _ sol.sudoku.state j).2.1
  · intro j hj hgiv hvn
    show (((sol.sudoku.updateState _).2.state).getCellD j).pencilMarks = _
    rw [updateState_snd_state]
    have hsnd : (scanErase sol.sudoku.state allHouses j digits).Nodup := by
      rw [scanErase_eq_maskFun sol.sudoku.state j hj]
      unfold maskFun
      exact List.Nodup.filter _ (by decide)
    rw [applyPencilUpdate_lookup _ sol.sudoku.state j
      (scanErase sol.sudoku.state allHouses j digits) hndc
      (hget j hj hgiv hvn) (by omega) hgiv hvn hsnd]
    show scanErase sol.sudoku.state allHouses j digits = _
    exact scanErase_eq_maskFun sol.sudoku.state j hj

/-- C8: `fillPencilMarks`, the code's initialize-candidates, is idempotent:
on a board that passes `checkValueIsValid`, with 81 cells and a well-formed
candidate index, a first run gives every empty non-given cell the pencil-mark
mask 1..9 minus the values present in its block, row and column, and a second
run immediately after leaves every such mask exactly as the first run left
it. -/
theorem fillPencilMarks_idempotent (sol : Solver)
    (hval : checkValueIsValid sol.sudoku.state = true)
    (h81 : sol.sudoku.state.cells.length = 81)
    (hnd : (sol.candidatesForCell.map Prod.fst).Nodup)
    (hbd : ∀ k ∈ sol.candidatesForCell.map Prod.fst, k < 81) :
    ∃ sol1 sol2 : Solver,
      fillPencilMarks sol = some sol1 ∧ fillPencilMarks sol1 = some sol2 ∧
      ∀ j, j < 81 → (sol.sudoku.state.getCellD j).isGiven = false →
        (sol.sudoku.state.getCellD j).value = none →
        (sol1.sudoku.state.getCellD j).pencilMarks =
          maskFun sol.sudoku.state j ∧
        (sol2.sudoku.state.getCellD j).pencilMarks =
          (sol1.sudoku.state.getCellD j).pencilMarks := by
  obtain ⟨sol1, hfp1, hlen1, hnd1, hbd1, hv1, hg1, hm1⟩ :=
    fillPencilMarks_spec sol hval h81 hnd hbd
  have hval1 : checkValueIsValid sol1.sudoku.state = true := by
    rw [checkValueIsValid_congr sol.sudoku.state sol1.sudoku.state hv1]
    exact hval
  obtain ⟨sol2, hfp2, _, _, _, _, _, hm2⟩ :=
    fillPencilMarks_spec sol1 hval1 hlen1 hnd1 hbd1
  refine ⟨sol1, sol2, hfp1, hfp2, ?_⟩
  intro j hj hgiv hvn
  have hgiv1 : (sol1.sudoku.state.getCellD j).isGiven = false := by
    rw [hg1 j]
    exact hgiv
  have hvn1 : (sol1.sudoku.state.getCellD j).value = none := by
    rw [hv1 j]
    exact hvn
  refine ⟨hm1 j hj hgiv hvn, ?_⟩
  rw [hm2 j hj hgiv1 hvn1]
  rw [maskFun_congr sol.sudoku.state sol1.sudoku.state hv1 j]
  exact (hm1 j hj hgiv hvn).symm

/-- Witness for C8 at a concrete input: the fresh solver on the empty
board satisfies every hypothesis, so two runs of `fillPencilMarks` agree on
all 81 masks. -/
theorem fillPencilMarks_idempotent_witness :
    ∃ sol1 sol2 : Solver,
      fillPencilMarks emptySolver = some sol1 ∧
      fillPencilMarks sol1 = some sol2 ∧
      ∀ j, j < 81 → (emptySolver.sudoku.state.getCellD j).isGiven = false →
        (emptySolver.sudoku.state.getCellD j).value = none →
        (sol1.sudoku.state.getCellD j).pencilMarks =
          maskFun emptySolver.sudoku.state j ∧
        (sol2.sudoku.state.getCellD j).pencilMarks =
          (sol1.sudoku.state.getCellD j).pencilMarks :=
  fillPencilMarks_idempotent emptySolver (by decide) (by decide)
    (by decide) (by decide)
